import Mathlib

/-!
# Verification of the Adobe PDF outline-extraction engine

Shallow embedding of `src/Challenge_1a/process_pdfs.py`
(class `CorrectedOutlineExtractor`) and of the driver
`src/Challenge_1b/process_challenge1b.py`.

Modelling conventions:
* Python floats (font sizes, page coordinates) are modelled as `ℚ`.
* Python strings are Lean `String`s; the ASCII-only character predicates
  (`\d`, `\s`, `str.lower`, `str.strip`) are modelled on ASCII, which is
  exact on the inputs the theorems below evaluate.
* `unicodedata.normalize('NFKC', ·)` is an external library call; it is
  threaded through the model as an explicit function parameter `nfkc`.
* Python `list.sort` / `sorted` are stable sorts; they are modelled with
  Mathlib's `List.insertionSort`, which is stable.
* Python `max(xs, key=f)` returns the first element attaining the maximal
  key; it is modelled by a left fold that replaces the current best only
  on a strictly larger key.
-/

namespace PdfOutline

/-- ASCII approximation of Python's whitespace class (used by `\s`,
`str.split()`, `str.strip()`, `re.sub(r'\s+', ' ', ·)`). -/
def isPyWs (c : Char) : Bool :=
  c = ' ' || c = '\t' || c = '\n' || c = '\r' || c = '\x0b' || c = '\x0c'

/-- Python `str.strip()` on a character list. -/
def stripChars (l : List Char) : List Char :=
  ((l.dropWhile isPyWs).reverse.dropWhile isPyWs).reverse

/-- Python `str.strip()`. -/
def pyStrip (s : String) : String :=
  ⟨stripChars s.toList⟩

/-- Python `str.lower()` (ASCII approximation, via `Char.toLower`). -/
def pyLower (s : String) : String :=
  ⟨s.data.map Char.toLower⟩

/-- Helper for `re.sub(r'\s+', ' ', text)`: the Boolean records whether the
previously emitted character came from a whitespace run. -/
def collapseWsAux : Bool → List Char → List Char
  | _, [] => []
  | prevWs, c :: rest =>
    if isPyWs c then
      if prevWs then collapseWsAux true rest
      else ' ' :: collapseWsAux true rest
    else c :: collapseWsAux false rest

/-- Python `re.sub(r'\s+', ' ', text)`: each maximal whitespace run becomes
a single space. -/
def collapseWs (s : String) : String :=
  ⟨collapseWsAux false s.toList⟩

/-- Helper for `len(text.split())`: counts maximal non-whitespace runs; the
Boolean records whether we are currently inside a word. -/
def countWordsAux : Bool → List Char → Nat
  | _, [] => 0
  | inWord, c :: rest =>
    if isPyWs c then countWordsAux false rest
    else (if inWord then 0 else 1) + countWordsAux true rest

/-- Python `len(text.split())`. -/
def pyWordCount (s : String) : Nat :=
  countWordsAux false s.toList

/-- Does `hay` start with `needle`? -/
def listStartsWith : List Char → List Char → Bool
  | [], _ => true
  | _ :: _, [] => false
  | c :: cs, d :: ds => c = d && listStartsWith cs ds

/-- Python `needle in hay` (substring containment). -/
def listHasSub (needle : List Char) : List Char → Bool
  | [] => listStartsWith needle []
  | c :: rest => listStartsWith needle (c :: rest) || listHasSub needle rest

/-- Python `pat in s` for strings. -/
def strHasSub (s pat : String) : Bool :=
  listHasSub pat.toList s.toList

/-- Python `s.startswith(pat)` / an anchored literal `re.match`. -/
def strStartsWith (s pat : String) : Bool :=
  listStartsWith pat.toList s.toList

/-- Python `s.endswith(pat)` for a single character. -/
def strEndsWithChar (s : String) (c : Char) : Bool :=
  match s.toList.getLast? with
  | some d => d = c
  | none => false

/-- Python `max(items, key=lambda x: x[1])` over an association list:
keeps the first entry whose count is maximal. -/
def pyMaxBySnd : List (ℚ × Nat) → Option (ℚ × Nat)
  | [] => none
  | x :: xs => some (xs.foldl (fun best y => if y.2 > best.2 then y else best) x)

/-- Python `max` of a nonempty list of rationals (`0` on the empty list,
which the call sites never pass). -/
def pyMaxQ : List ℚ → ℚ
  | [] => 0
  | x :: xs => xs.foldl max x

/-- Language tag produced by `detect_language`. -/
inductive Lang
  | en
  | ja
  | zh
  | ko
  | ar
deriving DecidableEq, Repr

/-- Is the language tag one of the CJK/Korean scripts (Python
`self.detected_language in ['ja', 'zh', 'ko']`)? -/
def Lang.isCjk : Lang → Bool
  | .ja => true
  | .zh => true
  | .ko => true
  | _ => false

/-- Is the tag one of `['en', 'ar']` (word counting by `split()`)? -/
def Lang.isWordCounted : Lang → Bool
  | .en => true
  | .ar => true
  | _ => false

/-- One `block_info` record built by `analyze_fonts`: a normalized,
stripped text fragment with its page, rounded average font size, bold
flag, coordinates and the precomputed `is_all_caps` flag (Python
`text.isupper()` on the stored text).  The derived fields `length`,
`word_count`, `lines` and `has_mixed_case` are recomputed from `text`
wherever the source uses them, so they are not stored. -/
structure Block where
  text : String
  page : Nat
  size : ℚ
  font_name : String
  is_bold : Bool
  x : ℚ
  y : ℚ
  is_all_caps : Bool
deriving DecidableEq, Repr

/-- A `potential_headings` element built in `extract_outline`. -/
structure Heading where
  text : String
  page : Nat
  level : Nat
  position : ℚ
deriving DecidableEq, Repr

/-- A final outline entry (`{'level': 'H1'|'H2'|'H3', 'text': ..., 'page': ...}`). -/
structure Entry where
  level : String
  text : String
  page : Nat
deriving DecidableEq, Repr

/-- The value returned by `extract_outline`.  `title` is an `Option`
because the Python function `extract_title_corrected` can fall through
without a `return` statement, producing `None`. -/
structure DocResult where
  title : Option String
  outline : List Entry
deriving DecidableEq, Repr

/-! ## Regular-expression pattern matchers

Each Python pattern used by the extractor is compiled by hand into a
Boolean matcher on `List Char`.  All the patterns are anchored at the
start (`re.match`, or `re.search` with a leading `^` and no MULTILINE
flag).  Greedy quantifier + backtracking semantics collapse to the
deterministic code below because in every pattern the character class of
a quantifier is disjoint from the character that must follow it. -/

/-- Drop a maximal run of ASCII digits (`\d+` is always followed by a
non-digit in the patterns below, so the maximal run is the only match). -/
def dropDigits (l : List Char) : List Char :=
  l.dropWhile Char.isDigit

/-- `\s+` anchored here: at least one whitespace character follows. -/
def startsWithWsChar : List Char → Bool
  | c :: _ => isPyWs c
  | [] => false

/-- `\.?\s+` : an optional dot, then at least one whitespace character.
If the head is `'.'` it must be consumed, because `\s+` cannot match it. -/
def optDotWs : List Char → Bool
  | '.' :: m => startsWithWsChar m
  | m => startsWithWsChar m

/-- `[A-Z]`. -/
def isUpperAZ (c : Char) : Bool :=
  'A' ≤ c && c ≤ 'Z'

/-- `[a-z]`. -/
def isLowerAZ (c : Char) : Bool :=
  'a' ≤ c && c ≤ 'z'

/-- `\s+[A-Z]` : at least one whitespace character, then (after the
maximal whitespace run) an upper-case letter. -/
def wsThenUpper : List Char → Bool
  | c :: rest =>
    isPyWs c &&
      (match rest.dropWhile isPyWs with
       | d :: _ => isUpperAZ d
       | [] => false)
  | [] => false

/-- `\.?\s+[A-Z]`. -/
def optDotWsUpper : List Char → Bool
  | '.' :: m => wsThenUpper m
  | m => wsThenUpper m

/-- `^\d+\.\s+` (level-1 marker in `determine_heading_level_corrected`). -/
def matchNumDotWs : List Char → Bool
  | c :: rest =>
    c.isDigit &&
      (match dropDigits rest with
       | '.' :: r2 => startsWithWsChar r2
       | _ => false)
  | [] => false

/-- `^\d+\.\d+\.?\s+` (level-2 marker). -/
def matchNumNumWs : List Char → Bool
  | c :: rest =>
    c.isDigit &&
      (match dropDigits rest with
       | '.' :: d :: r2 => d.isDigit && optDotWs (dropDigits r2)
       | _ => false)
  | [] => false

/-- `^\d+\.\d+\.\d+\.?\s+` (level-3 marker). -/
def matchNumNumNumWs : List Char → Bool
  | c :: rest =>
    c.isDigit &&
      (match dropDigits rest with
       | '.' :: d :: r2 =>
         d.isDigit &&
           (match dropDigits r2 with
            | '.' :: e :: r3 => e.isDigit && optDotWs (dropDigits r3)
            | _ => false)
       | _ => false)
  | [] => false

/-- `[IVXLCDM]`. -/
def isRomanUpper (c : Char) : Bool :=
  c = 'I' || c = 'V' || c = 'X' || c = 'L' || c = 'C' || c = 'D' || c = 'M'

/-- `^[IVXLCDM]+\.?\s+` (roman-numeral marker). -/
def matchRomanWs : List Char → Bool
  | c :: rest => isRomanUpper c && optDotWs (rest.dropWhile isRomanUpper)
  | [] => false

/-- `^[A-Z]\.?\s+` (letter-section marker). -/
def matchLetterWs : List Char → Bool
  | c :: rest => isUpperAZ c && optDotWs rest
  | [] => false

/-- `^\d+\.?\s+[A-Z]` (universal structural pattern "1. Heading"). -/
def matchStructNum : List Char → Bool
  | c :: rest => c.isDigit && optDotWsUpper (dropDigits rest)
  | [] => false

/-- `^\d+\.\d+\.?\s+[A-Z]` (universal structural pattern "1.1. Subsection"). -/
def matchStructNumNum : List Char → Bool
  | c :: rest =>
    c.isDigit &&
      (match dropDigits rest with
       | '.' :: d :: r2 => d.isDigit && optDotWsUpper (dropDigits r2)
       | _ => false)
  | [] => false

/-- `^[IVXLCDM]+\.?\s+[A-Z]` (universal structural pattern). -/
def matchStructRoman : List Char → Bool
  | c :: rest => isRomanUpper c && optDotWsUpper (rest.dropWhile isRomanUpper)
  | [] => false

/-- `^[A-Z]\.?\s+[A-Z]` (universal structural pattern). -/
def matchStructLetter : List Char → Bool
  | c :: rest => isUpperAZ c && optDotWsUpper rest
  | [] => false

/-- `[一二三四五六七八九十\d]` (the kanji-numeral class of the Japanese,
Chinese and Korean structural patterns). -/
def isKanjiDigit (c : Char) : Bool :=
  c = '一' || c = '二' || c = '三' || c = '四' || c = '五' || c = '六' ||
  c = '七' || c = '八' || c = '九' || c = '十' || c.isDigit

/-- `[１-９０]` (full-width digits). -/
def isFullwidthDigit (c : Char) : Bool :=
  ('１' ≤ c && c ≤ '９') || c = '０'

/-- `[일이삼사오육칠팔구십\d]` (the hangul-numeral class). -/
def isHangulDigit (c : Char) : Bool :=
  c = '일' || c = '이' || c = '삼' || c = '사' || c = '오' || c = '육' ||
  c = '칠' || c = '팔' || c = '구' || c = '십' || c.isDigit

/-- `[٠-٩]` (Arabic-Indic digits). -/
def isArabicIndicDigit (c : Char) : Bool :=
  '٠' ≤ c && c ≤ '٩'

/-- `^第[class]+章` / `^第[class]+節` / ... : `'第'`, a nonempty run of the
numeral class, then the given terminator character. -/
def matchDaiNum (term : Char) (l : List Char) : Bool :=
  match l with
  | '第' :: c :: rest =>
    isKanjiDigit c &&
      (match rest.dropWhile isKanjiDigit with
       | d :: _ => d = term
       | [] => false)
  | _ => false

/-- `^第[class]+[章节]` (the combined Chinese/Korean level-1 pattern of
`determine_heading_level_corrected`). -/
def matchDaiNumZhKo (l : List Char) : Bool :=
  match l with
  | '第' :: c :: rest =>
    isKanjiDigit c &&
      (match rest.dropWhile isKanjiDigit with
       | d :: _ => d = '章' || d = '节'
       | [] => false)
  | _ => false

/-- `^제[class]+장` / `^제[class]+절` (Korean structural patterns). -/
def matchJeNum (term : Char) (l : List Char) : Bool :=
  match l with
  | '제' :: c :: rest =>
    isHangulDigit c &&
      (match rest.dropWhile isHangulDigit with
       | d :: _ => d = term
       | [] => false)
  | _ => false

/-- `^[class]+\.` : a nonempty run of the class, then an ASCII dot. -/
def matchSetDot (p : Char → Bool) (l : List Char) : Bool :=
  match l with
  | c :: rest =>
    p c &&
      (match rest.dropWhile p with
       | '.' :: _ => true
       | _ => false)
  | [] => false

/-- `^c` : the text starts with the given character (bullet patterns). -/
def headIs (c : Char) : List Char → Bool
  | d :: _ => d = c
  | [] => false

/-- `^【.*】$` : `.` does not match `'\n'` and `$` anchors at the end, so
the text must start with `'【'`, end with `'】'`, with no newline in
between. -/
def matchCjkBrackets : List Char → Bool
  | '【' :: rest =>
    (match rest.getLast? with
     | some d => d = '】'
     | none => false) && !(rest.dropLast.contains '\n')
  | _ => false

/-! ## Normalization, font statistics, heading validation and levels -/

/-- The Japanese `str.maketrans('０１２３４５６７８９．', '0123456789.')`
table of `normalize_text`. -/
def jaCharMap (c : Char) : Char :=
  if c = '０' then '0'
  else if c = '１' then '1'
  else if c = '２' then '2'
  else if c = '３' then '3'
  else if c = '４' then '4'
  else if c = '５' then '5'
  else if c = '６' then '6'
  else if c = '７' then '7'
  else if c = '８' then '8'
  else if c = '９' then '9'
  else if c = '．' then '.'
  else c

/-- `normalize_text`: NFKC normalization (the external `unicodedata`
call, passed in as `nfkc`), the Japanese digit translation, then
`strip()`. -/
def normalize_text (nfkc : String → String) (lang : Lang) (s : String) : String :=
  if s = "" then ""
  else
    let t := nfkc s
    let t := if lang = .ja then (⟨t.data.map jaCharMap⟩ : String) else t
    pyStrip t

/-- `is_structural_heading_pattern`: the per-script `any(re.search(...))`
 cascade, applied to the normalized text. -/
def is_structural_heading_pattern (nfkc : String → String) (lang : Lang)
    (text : String) : Bool :=
  let tn := (normalize_text nfkc lang text).toList
  match lang with
  | .ja =>
    matchDaiNum '章' tn || matchDaiNum '節' tn || matchSetDot isKanjiDigit tn ||
    matchSetDot isFullwidthDigit tn || headIs '●' tn || headIs '○' tn ||
    headIs '■' tn || matchCjkBrackets tn
  | .zh =>
    matchDaiNum '章' tn || matchDaiNum '节' tn || matchSetDot isKanjiDigit tn ||
    matchCjkBrackets tn
  | .ko =>
    matchJeNum '장' tn || matchJeNum '절' tn || matchSetDot isHangulDigit tn
  | .ar =>
    matchSetDot isArabicIndicDigit tn || matchSetDot Char.isDigit tn
  | .en =>
    matchStructNum tn || matchStructNumNum tn || matchStructRoman tn ||
    matchStructLetter tn

/-- `^\d+\.?\s*$` : digits, an optional dot, then only whitespace. -/
def skipBareNumber (l : List Char) : Bool :=
  match l with
  | c :: rest =>
    c.isDigit &&
      (match dropDigits rest with
       | '.' :: m => m.all isPyWs
       | m => m.all isPyWs)
  | [] => false

/-- `^[a-z]\)?\s*$`. -/
def skipLetterItem (l : List Char) : Bool :=
  match l with
  | c :: rest =>
    isLowerAZ c &&
      (match rest with
       | ')' :: m => m.all isPyWs
       | m => m.all isPyWs)
  | [] => false

/-- `^\d{1,2}/\d{1,2}/\d{4}$`. -/
def skipDate (l : List Char) : Bool :=
  let g1 := l.takeWhile Char.isDigit
  let r1 := l.dropWhile Char.isDigit
  if 1 ≤ g1.length ∧ g1.length ≤ 2 then
    match r1 with
    | '/' :: r2 =>
      let g2 := r2.takeWhile Char.isDigit
      let r3 := r2.dropWhile Char.isDigit
      if 1 ≤ g2.length ∧ g2.length ≤ 2 then
        match r3 with
        | '/' :: r4 => r4.length = 4 && r4.all Char.isDigit
        | _ => false
      else false
    | _ => false
  else false

/-- `^page \d+`. -/
def skipPageNum (l : List Char) : Bool :=
  match l with
  | 'p' :: 'a' :: 'g' :: 'e' :: ' ' :: c :: _ => c.isDigit
  | _ => false

/-- `^version \d+`. -/
def skipVersionNum (l : List Char) : Bool :=
  match l with
  | 'v' :: 'e' :: 'r' :: 's' :: 'i' :: 'o' :: 'n' :: ' ' :: c :: _ => c.isDigit
  | _ => false

/-- The `skip_patterns` cascade of `is_valid_heading`, applied (with
`re.match`) to the lower-cased text. -/
def matchesSkipPattern (tl : String) : Bool :=
  let l := tl.toList
  (l ≠ [] && l.all (· = '.')) ||
  skipBareNumber l ||
  skipLetterItem l ||
  skipPageNum l ||
  strStartsWith tl "copyright" ||
  skipVersionNum l ||
  skipDate l ||
  strStartsWith tl "www." ||
  strStartsWith tl "http" ||
  (l ≠ [] && l.all Char.isDigit) ||
  (l ≠ [] && l.all (fun c => c = 'i' || c = 'v' || c = 'x'))

/-- One step of accumulating `self.font_stats[round(avg_size, 1)] += 1`:
a Python dict is an association list in key-insertion order. -/
def bumpStat (tbl : List (ℚ × Nat)) (sz : ℚ) : List (ℚ × Nat) :=
  match tbl with
  | [] => [(sz, 1)]
  | (s, n) :: rest =>
    if s = sz then (s, n + 1) :: rest else (s, n) :: bumpStat rest sz

/-- The `font_stats` table accumulated over all blocks by `analyze_fonts`
(keys in first-encounter order). -/
def font_stats_of (blocks : List Block) : List (ℚ × Nat) :=
  blocks.foldl (fun tbl b => bumpStat tbl b.size) []

/-- `enumerate(heading_sizes[:3])` → `{size: i + 1}`. -/
def assignSizeLevels : Nat → List ℚ → List (ℚ × Nat)
  | _, [] => []
  | i, s :: rest => (s, i + 1) :: assignSizeLevels (i + 1) rest

/-- Descending comparison used by `sort(reverse=True)` on font sizes. -/
def geQ (a b : ℚ) : Prop := b ≤ a

instance : DecidableRel geQ := fun a b => inferInstanceAs (Decidable (b ≤ a))

instance : IsTotal ℚ geQ := ⟨fun a b => le_total b a⟩

instance : IsTrans ℚ geQ := ⟨fun _ _ _ h h' => le_trans h' h⟩

/-- `build_font_hierarchy`: body size is the most frequent size (first
encountered wins ties), heading sizes are the sizes strictly above it,
sorted descending, truncated to 3, mapped to levels 1, 2, 3.  Returns the
`font_size_hierarchy` association list. -/
def build_font_hierarchy (stats : List (ℚ × Nat)) : List (ℚ × Nat) :=
  match pyMaxBySnd stats with
  | none => []
  | some bodyPair =>
    let font_sizes := (stats.map Prod.fst).insertionSort geQ
    let heading_sizes := font_sizes.filter (fun s => bodyPair.1 < s)
    let heading_sizes := heading_sizes.insertionSort geQ
    assignSizeLevels 0 (heading_sizes.take 3)

/-- The word count recomputed inside `is_valid_heading` and
`analyze_fonts`: `len(text.split())` for Latin/Arabic, `len(text)`
otherwise. -/
def scriptWordCount (lang : Lang) (text : String) : Nat :=
  if lang.isWordCounted then pyWordCount text else text.length

/-- `^[A-Z][a-zA-Z\s\-\'(),]+$` (the title-case bonus pattern). -/
def titleCasePattern (l : List Char) : Bool :=
  match l with
  | c :: rest =>
    isUpperAZ c && rest ≠ [] &&
      rest.all (fun d =>
        isUpperAZ d || isLowerAZ d || isPyWs d || d = '-' || d = '\'' ||
        d = '(' || d = ')' || d = ',')
  | [] => false

/-- The font-size-ratio bonus of `is_valid_heading`
(`≥1.5→+4, ≥1.3→+3, ≥1.2→+2, ≥1.1→+1, else +0`). -/
def sizeRatioBonus (ratio : ℚ) : Nat :=
  if ratio ≥ 1.5 then 4
  else if ratio ≥ 1.3 then 3
  else if ratio ≥ 1.2 then 2
  else if ratio ≥ 1.1 then 1
  else 0

/-- The bold bonus (`+2`). -/
def boldBonus (b : Block) : Nat :=
  if b.is_bold then 2 else 0

/-- The structural-pattern bonus (`+3`). -/
def structuralBonus (nfkc : String → String) (lang : Lang) (text : String) : Nat :=
  if is_structural_heading_pattern nfkc lang text then 3 else 0

/-- The mutually exclusive casing bonus: all-caps with ≥2 words/characters
→ +2, else title-case with ≥2 words/characters → +1, else ends with a
colon at length > 5 → +1. -/
def casingBonus (lang : Lang) (b : Block) (text : String) : Nat :=
  let word_count := scriptWordCount lang text
  if b.is_all_caps ∧ word_count ≥ 2 then 2
  else if titleCasePattern text.toList ∧ word_count ≥ 2 then 1
  else if strEndsWithChar text ':' ∧ text.length > 5 then 1
  else 0

/-- The word/character-count band bonus: CJK/Korean 3–30, else 2–15 → +1. -/
def bandBonus (lang : Lang) (text : String) : Nat :=
  let word_count := scriptWordCount lang text
  if lang.isCjk then
    if 3 ≤ word_count ∧ word_count ≤ 30 then 1 else 0
  else
    if 2 ≤ word_count ∧ word_count ≤ 15 then 1 else 0

/-- `is_valid_heading`, translated line by line: title check, length
band, skip patterns, then the incremental `heading_score`
accumulation, accepting iff the final score is ≥ 4. -/
def is_valid_heading (nfkc : String → String) (lang : Lang)
    (extracted_title : String) (body_size : ℚ) (b : Block) : Bool :=
  let text := pyStrip b.text
  let text_lower := pyLower text
  if text_lower = extracted_title then false
  else
    let min_length : Nat := if lang.isCjk then 2 else 3
    let max_length : Nat := if lang.isCjk then 200 else 150
    if text.length < min_length ∨ text.length > max_length then false
    else if matchesSkipPattern text_lower then false
    else
      let size_ratio := if body_size > 0 then b.size / body_size else 1
      let heading_score := sizeRatioBonus size_ratio
      let heading_score := heading_score + boldBonus b
      let heading_score := heading_score + structuralBonus nfkc lang text
      let heading_score := heading_score + casingBonus lang b text
      let heading_score := heading_score + bandBonus lang text
      heading_score ≥ 4

/-- `determine_heading_level_corrected`: script-specific structural
markers first, then the font-size hierarchy lookup, then the size-ratio
fallback. -/
def determine_heading_level_corrected (nfkc : String → String) (lang : Lang)
    (hierarchy : List (ℚ × Nat)) (stats : List (ℚ × Nat))
    (b : Block) (text : String) : Nat :=
  let tn := (normalize_text nfkc lang text).toList
  let fromPattern : Option Nat :=
    match lang with
    | .ja =>
      if matchDaiNum '章' tn then some 1
      else if matchDaiNum '節' tn then some 2
      else if matchSetDot isKanjiDigit tn then some 3
      else none
    | .zh =>
      if matchDaiNumZhKo tn then some 1
      else if matchSetDot isKanjiDigit tn then some 2
      else none
    | .ko =>
      if matchDaiNumZhKo tn then some 1
      else if matchSetDot isKanjiDigit tn then some 2
      else none
    | .ar =>
      if matchSetDot (fun c => isArabicIndicDigit c || c.isDigit) tn then some 2
      else none
    | .en =>
      if matchNumDotWs tn then some 1
      else if matchNumNumWs tn then some 2
      else if matchNumNumNumWs tn then some 3
      else if matchRomanWs tn then some 1
      else if matchLetterWs tn then some 2
      else none
  match fromPattern with
  | some lvl => lvl
  | none =>
    match hierarchy.lookup b.size with
    | some lvl => lvl
    | none =>
      let body_size : ℚ :=
        match pyMaxBySnd stats with
        | some bodyPair => bodyPair.1
        | none => 12
      let size_ratio := b.size / body_size
      if size_ratio ≥ 1.5 then 1
      else if size_ratio ≥ 1.3 then 2
      else 3

/-! ## Title extraction (`extract_title_corrected`) -/

/-- `.*q` after a match of the first literal: `.` does not match `'\n'`,
so scan forward for `q` without crossing a newline. -/
def dotStarThen (q : List Char) : List Char → Bool
  | [] => listStartsWith q []
  | c :: rest => listStartsWith q (c :: rest) || (c ≠ '\n' && dotStarThen q rest)

/-- `re.search('p.*q', text)` for literals `p`, `q`. -/
def containsThenGap (p q : List Char) : List Char → Bool
  | [] => false
  | c :: rest =>
    (listStartsWith p (c :: rest) && dotStarThen q ((c :: rest).drop p.length)) ||
    containsThenGap p q rest

/-- The document types of the `document_patterns` classifier. -/
inductive DocType
  | catalog_listing
  | invitation_flyer
  | form_document
  | formal_document
  | standard
deriving DecidableEq, Repr

/-- The `document_patterns` classifier: the categories are tried in dict
insertion order (catalog, invitation, form, formal) and the first
category with any matching pattern wins; `'offerings?'`-style optional
suffixes reduce to containment of the stem. -/
def classify_document_type (all_text : String) : DocType :=
  let l := all_text.toList
  if strHasSub all_text "pathway" || strHasSub all_text "course offering" ||
     strHasSub all_text "elective" || strHasSub all_text "program option" ||
     containsThenGap "what".toList "say".toList l ||
     strHasSub all_text "career path" ||
     containsThenGap "academic".toList "options".toList l then
    .catalog_listing
  else if strHasSub all_text "hope to see you" || strHasSub all_text "rsvp" ||
     strHasSub all_text "www." || strHasSub all_text ".com" ||
     strHasSub all_text "address:" || strHasSub all_text "party" ||
     strHasSub all_text "invitation" ||
     strHasSub all_text "parents or guardians" then
    .invitation_flyer
  else if strHasSub all_text "application form" || strHasSub all_text "signature" ||
     strHasSub all_text "government servant" ||
     strHasSub all_text "permanent or temporary" ||
     strHasSub all_text "ltc advance" then
    .form_document
  else if strHasSub all_text "overview" || strHasSub all_text "foundation level" ||
     strHasSub all_text "revision history" ||
     strHasSub all_text "table of contents" ||
     strHasSub all_text "acknowledgements" || strHasSub all_text "references" then
    .formal_document
  else .standard

/-- A scored title candidate (`{'text': ..., 'score': ..., 'block': ...}`). -/
structure TitleCand where
  text : String
  score : Nat
  block : Block
deriving DecidableEq, Repr

/-- The contact/address skip test of the invitation-flyer branch. -/
def flyerSkip (text_lower : String) : Bool :=
  strHasSub text_lower "www." || strHasSub text_lower ".com" ||
  strHasSub text_lower "address:" || strHasSub text_lower "phone:" ||
  strHasSub text_lower "rsvp:" || strHasSub text_lower "parents or guardians"

/-- The flyer title score: position, relative size, short phrase,
emotive content. -/
def flyerScore (first_page_blocks : List Block) (b : Block)
    (text text_lower : String) : Nat :=
  let word_count := pyWordCount text
  let max_y := pyMaxQ (first_page_blocks.map (fun x => x.y))
  let position_ratio := if max_y > 0 then b.y / max_y else 0
  let s : Nat := if position_ratio ≥ 0.7 then 2 else 0
  let max_size := pyMaxQ (first_page_blocks.map (fun x => x.size))
  let size_ratio := b.size / max_size
  let s := s + (if size_ratio ≥ 0.9 then 3 else 0)
  let s := s + (if 2 ≤ word_count ∧ word_count ≤ 8 then 2 else 0)
  let s := s +
    (if strHasSub text "!" || strHasSub text_lower "hope" ||
        strHasSub text_lower "see" || strHasSub text_lower "there" then 1 else 0)
  s

/-- The flyer candidates (skip contact info and long text, keep score ≥ 4). -/
def flyerCandidates (first_page_blocks : List Block) : List TitleCand :=
  first_page_blocks.filterMap (fun b =>
    let text := pyStrip b.text
    let text_lower := pyLower text
    if flyerSkip text_lower then none
    else if pyWordCount text > 12 then none
    else
      let score := flyerScore first_page_blocks b text text_lower
      if score ≥ 4 then some ⟨text, score, b⟩ else none)

/-- Python `max(title_candidates, key=lambda x: x['score'])`: first
candidate attaining the maximal score. -/
def pyMaxCandByScore : List TitleCand → Option TitleCand
  | [] => none
  | x :: xs => some (xs.foldl (fun best y => if y.score > best.score then y else best) x)

/-- `^\d+\.` (used by the formal title scoring, no whitespace required). -/
def matchNumDot : List Char → Bool
  | c :: rest =>
    c.isDigit &&
      (match dropDigits rest with
       | '.' :: _ => true
       | _ => false)
  | [] => false

/-- `^chapter \d+`. -/
def skipChapterNum (l : List Char) : Bool :=
  match l with
  | 'c' :: 'h' :: 'a' :: 'p' :: 't' :: 'e' :: 'r' :: ' ' :: c :: _ => c.isDigit
  | _ => false

/-- `^section \d+`. -/
def skipSectionNum (l : List Char) : Bool :=
  match l with
  | 's' :: 'e' :: 'c' :: 't' :: 'i' :: 'o' :: 'n' :: ' ' :: c :: _ => c.isDigit
  | _ => false

/-- The `skip_patterns` of the formal/standard title branch (`re.match`
on the lower-cased text; `^\d+\.\s` requires one whitespace after the
dot, exactly like `matchNumDotWs`). -/
def titleSkipPattern (tl : String) : Bool :=
  let l := tl.toList
  (l ≠ [] && l.all Char.isDigit) ||
  skipPageNum l ||
  strStartsWith tl "copyright" ||
  strStartsWith tl "version" ||
  matchNumDotWs l ||
  skipChapterNum l ||
  skipSectionNum l ||
  strStartsWith tl "revision history" ||
  strStartsWith tl "table of contents" ||
  strStartsWith tl "acknowledgements"

/-- The formal/standard title score.  `not text.isupper()` is read off
the stored `is_all_caps` flag, which `analyze_fonts` computed as
`text.isupper()` on the same (already stripped) text. -/
def formalScore (first_page_blocks : List Block) (b : Block)
    (text text_lower : String) : Nat :=
  let word_count := pyWordCount text
  let max_y := pyMaxQ (first_page_blocks.map (fun x => x.y))
  let position_ratio := if max_y > 0 then b.y / max_y else 0
  let s : Nat := if position_ratio ≥ 0.8 then 3
    else if position_ratio ≥ 0.6 then 2 else 0
  let max_size := pyMaxQ (first_page_blocks.map (fun x => x.size))
  let size_ratio := b.size / max_size
  let s := s + (if size_ratio ≥ 0.95 then 3 else if size_ratio ≥ 0.85 then 2 else 0)
  let s := s +
    (if 3 ≤ word_count ∧ word_count ≤ 20 then 2
     else if 20 < word_count ∧ word_count ≤ 30 then 1 else 0)
  let s := s +
    (if !(matchNumDot text.toList) && !(strEndsWithChar text ':') then 2 else 0)
  let s := s +
    (if (match text.toList with
         | c :: _ => isUpperAZ c
         | [] => false) && !b.is_all_caps then 1 else 0)
  let s := s +
    (if strHasSub text_lower "overview" || strHasSub text_lower "introduction" ||
        strHasSub text_lower "guide" || strHasSub text_lower "manual" ||
        strHasSub text_lower "report" || strHasSub text_lower "analysis"
     then 1 else 0)
  s

/-- The formal/standard candidates (threshold 6). -/
def formalCandidates (first_page_blocks : List Block) : List TitleCand :=
  first_page_blocks.filterMap (fun b =>
    let text := pyStrip b.text
    let text_lower := pyLower text
    if titleSkipPattern text_lower then none
    else
      let score := formalScore first_page_blocks b text text_lower
      if score ≥ 6 then some ⟨text, score, b⟩ else none)

/-- The key order of `title_candidates.sort(key=lambda x: (-x['score'],
-x['block']['size']))`: higher score first, ties by larger size. -/
def candOrd (a b : TitleCand) : Prop :=
  b.score < a.score ∨ (a.score = b.score ∧ b.block.size ≤ a.block.size)

instance : DecidableRel candOrd := fun a b => by
  unfold candOrd
  infer_instance

/-- The formal/standard branch after candidate collection: pick the best
candidate; if it is the only first-page block, or there is no candidate,
the Python function falls off the end and returns `None`. -/
def formalTitleResult (first_page_blocks : List Block) : Option String × String :=
  match (formalCandidates first_page_blocks).insertionSort candOrd with
  | best :: _ =>
    let other_blocks := first_page_blocks.filter (fun b => decide (b ≠ best.block))
    if 1 ≤ other_blocks.length then (some best.text, pyLower best.text)
    else (none, "")
  | [] => (none, "")

/-- The form-document condition: the stripped text contains `"form"`
(substring test, Python `'form' in text_lower`) and splits into at least
3 words. -/
def formTitleCond (b : Block) : Bool :=
  strHasSub (pyLower (pyStrip b.text)) "form" &&
  decide (3 ≤ pyWordCount (pyStrip b.text))

/-- `extract_title_corrected`.  Returns the pair
(Python return value, `self.extracted_title`).  The return value is an
`Option` because the formal/standard branch can fall through without a
`return` statement (Python `None`). -/
def extract_title_corrected (blocks : List Block) : Option String × String :=
  let first_page_blocks := blocks.filter (fun b => decide (b.page = 0))
  if first_page_blocks = [] then (some "", "")
  else
    let all_text := String.intercalate " " (blocks.map (fun b => pyLower b.text))
    match classify_document_type all_text with
    | .catalog_listing => (some "", "")
    | .invitation_flyer =>
      match pyMaxCandByScore (flyerCandidates first_page_blocks) with
      | some best => (some best.text, pyLower best.text)
      | none => (some "", "")
    | .form_document =>
      match first_page_blocks.find? formTitleCond with
      | some b => (some (pyStrip b.text), pyLower (pyStrip b.text))
      | none => (some "", "")
    | .formal_document => formalTitleResult first_page_blocks
    | .standard => formalTitleResult first_page_blocks

/-! ## Outline assembly (`extract_outline`, `enforce_corrected_hierarchy`) -/

/-- The key order of
`sorted(self.text_blocks, key=lambda b: (b['page'], -b['y']))`. -/
def lexBlockOrd (a b : Block) : Prop :=
  a.page < b.page ∨ (a.page = b.page ∧ -a.y ≤ -b.y)

instance : DecidableRel lexBlockOrd := fun a b => by
  unfold lexBlockOrd
  infer_instance

/-- The key order of `page_headings.sort(key=lambda h: h['position'])`. -/
def posOrd (a b : Heading) : Prop :=
  a.position ≤ b.position

instance : DecidableRel posOrd := fun a b => by
  unfold posOrd
  infer_instance

/-- `{1: 'H1', 2: 'H2', 3: 'H3'}.get(final_level, 'H3')`. -/
def level_map (fl : Nat) : String :=
  if fl = 1 then "H1" else if fl = 2 then "H2" else if fl = 3 then "H3" else "H3"

/-- The per-page level-smoothing state machine of
`enforce_corrected_hierarchy`: `current_level = 0` means "no heading
seen yet"; each heading's final level is its raw level when that does
not jump more than one deeper, else `min(current_level + 1, 3)`. -/
def nextLevel (current raw : Nat) : Nat :=
  if current = 0 then raw
  else if raw ≤ current then raw
  else if raw = current + 1 then raw
  else min (current + 1) 3

/-- Walk one page's headings, emitting `(final_level, heading)` pairs and
updating `current_level`. -/
def assignFinalLevels : Nat → List Heading → List (Nat × Heading)
  | _, [] => []
  | current, h :: rest =>
    (nextLevel current h.level, h) :: assignFinalLevels (nextLevel current h.level) rest

/-- `sorted(pages.keys())`: the distinct pages, ascending. -/
def sortedPageKeys (hs : List Heading) : List Nat :=
  ((hs.map (fun h => h.page)).dedup).insertionSort (· ≤ ·)

/-- The insertion-ordered heading list of one page (`pages[page_num]`,
a `defaultdict(list)` appended to in input order). -/
def pageGroup (hs : List Heading) (p : Nat) : List Heading :=
  hs.filter (fun h => decide (h.page = p))

/-- One page's headings, sorted top-to-bottom (stable sort by
`position`), with final levels assigned. -/
def pageFinalLevels (hs : List Heading) (p : Nat) : List (Nat × Heading) :=
  assignFinalLevels 0 ((pageGroup hs p).insertionSort posOrd)

/-- `enforce_corrected_hierarchy`: process pages in ascending order,
emit every heading of each page with its final level mapped to
`H1`/`H2`/`H3`. -/
def enforce_corrected_hierarchy (hs : List Heading) : List Entry :=
  if hs = [] then []
  else
    ((sortedPageKeys hs).map (fun p =>
      (pageFinalLevels hs p).map (fun x => Entry.mk (level_map x.1) x.2.text x.2.page))).flatten

/-- The emitted text of a block: `re.sub(r'\s+', ' ', block['text'].strip())`. -/
def headingText (b : Block) : String :=
  collapseWs (pyStrip b.text)

/-- The dedup/length/title filter of the collection loop:
`text_key not in seen_texts and len(text) >= min_length and
text_key != self.extracted_title`. -/
def collectCond (lang : Lang) (extracted_title : String) (seen : List String)
    (b : Block) : Prop :=
  pyLower (headingText b) ∉ seen ∧
  (if lang.isCjk then 2 else 3) ≤ (headingText b).length ∧
  pyLower (headingText b) ≠ extracted_title

instance (lang : Lang) (extracted_title : String) (seen : List String) (b : Block) :
    Decidable (collectCond lang extracted_title seen b) := by
  unfold collectCond
  infer_instance

/-- The heading-collection loop of `extract_outline`: walk the sorted
blocks, keep valid headings whose collapsed text is new, long enough and
distinct from the extracted title. -/
def collect_headings (nfkc : String → String) (lang : Lang)
    (extracted_title : String) (body_size : ℚ)
    (hierarchy stats : List (ℚ × Nat)) :
    List String → List Block → List Heading
  | _, [] => []
  | seen, b :: rest =>
    if is_valid_heading nfkc lang extracted_title body_size b then
      if collectCond lang extracted_title seen b then
        Heading.mk (headingText b) b.page
            (determine_heading_level_corrected nfkc lang hierarchy stats b
              (headingText b))
            (-b.y) ::
          collect_headings nfkc lang extracted_title body_size hierarchy stats
            (pyLower (headingText b) :: seen) rest
      else
        collect_headings nfkc lang extracted_title body_size hierarchy stats seen rest
    else
      collect_headings nfkc lang extracted_title body_size hierarchy stats seen rest

/-- The `potential_headings` list built by `extract_outline` (empty when
there are no blocks or no font statistics, matching the early returns). -/
def potential_headings_of (nfkc : String → String) (lang : Lang)
    (blocks : List Block) : List Heading :=
  if blocks = [] then []
  else
    let stats := font_stats_of blocks
    match pyMaxBySnd stats with
    | none => []
    | some bodyPair =>
      collect_headings nfkc lang (extract_title_corrected blocks).2 bodyPair.1
        (build_font_hierarchy stats) stats [] (blocks.insertionSort lexBlockOrd)

/-- `extract_outline` on the ingested block list: the detected language
tag and the external NFKC normalization are parameters. -/
def extract_outline (nfkc : String → String) (lang : Lang)
    (blocks : List Block) : DocResult :=
  if blocks = [] then ⟨some "", []⟩
  else
    let title := (extract_title_corrected blocks).1
    match pyMaxBySnd (font_stats_of blocks) with
    | none => ⟨title, []⟩
    | some _ => ⟨title, enforce_corrected_hierarchy (potential_headings_of nfkc lang blocks)⟩

/-! ## The Challenge 1b driver (`process_challenge1b.py`) -/

/-- The parsed `challenge1b_input.json` (with the `.get` defaults already
applied). -/
structure Config1b where
  persona : String
  job_to_be_done : String
  documents : List String
deriving DecidableEq, Repr

/-- The `metadata` object of a Challenge 1b output (the wall-clock
`processing_timestamp` is not modelled). -/
structure Meta1b where
  input_documents : List String
  persona : String
  job_to_be_done : String
  error : Option String
deriving DecidableEq, Repr

/-- A Challenge 1b output object. -/
structure Output1b where
  metadata : Meta1b
  extracted_sections : List String
  subsection_analysis : List String
deriving DecidableEq, Repr

/-- The environment `main` runs in: the configuration file (missing /
unreadable / parsed), which PDF filenames exist under `/app/input/PDFs`,
and the external `FontBasedGenericAnalyzer.analyze_documents` call,
which either returns a result or raises. -/
structure Env1b where
  configFile : Option (Option Config1b)
  pdfExists : String → Bool
  analyze : List String → String → String → Except String Output1b

/-- What `main` does: `sys.exit` with a diagnostic, or write one output
file. -/
inductive Outcome1b
  | abort (msg : String)
  | wrote (out : Output1b)
deriving DecidableEq, Repr

/-- `os.path.basename`. -/
def basename (path : String) : String :=
  ⟨(path.toList.reverse.takeWhile (fun c => c ≠ '/')).reverse⟩

/-- The PDF directory prepended by `pdf_dir / filename`. -/
def pdfDir : String := "/app/input/PDFs/"

/-- `main` of `process_challenge1b.py`: abort when the configuration
file is missing or unreadable or when no listed document resolves to an
existing PDF; otherwise run the analyzer, and on an analysis exception
still write an output whose metadata carries the error string and whose
section lists are empty. -/
def main1b (env : Env1b) : Outcome1b :=
  match env.configFile with
  | none => .abort "challenge1b_input.json not found"
  | some none => .abort "cannot read challenge1b_input.json"
  | some (some config) =>
    let doc_paths :=
      (config.documents.filter (fun f => env.pdfExists f)).map (fun f => pdfDir ++ f)
    if doc_paths = [] then .abort "No valid PDFs to process"
    else
      match env.analyze doc_paths config.persona config.job_to_be_done with
      | .ok result => .wrote result
      | .error e =>
        .wrote ⟨⟨doc_paths.map basename, config.persona, config.job_to_be_done, some e⟩,
          [], []⟩

/-! ## Helper lemmas

The arithmetic of `ℚ` (`Rat.mul`, `Rat.inv`, ...) is `@[irreducible]` in
Batteries; the concrete evaluations below need it unfolded. -/

set_option allowUnsafeReducibility true

attribute [local semireducible] Rat.mul Rat.inv Rat.add Rat.sub Rat.ofScientific

/-- Characterization of the Python-`max` fold: the result bounds every
element, bounds the seed, and is either the seed or the first element of
the list that strictly exceeds everything before it. -/
lemma foldl_pyMax_spec :
    ∀ (xs : List (ℚ × Nat)) (x : ℚ × Nat),
      (∀ e ∈ xs, e.2 ≤ (xs.foldl (fun best y => if y.2 > best.2 then y else best) x).2) ∧
      x.2 ≤ (xs.foldl (fun best y => if y.2 > best.2 then y else best) x).2 ∧
      (xs.foldl (fun best y => if y.2 > best.2 then y else best) x = x ∨
        ∃ l1 l2, xs = l1 ++ (xs.foldl (fun best y => if y.2 > best.2 then y else best) x) :: l2 ∧
          x.2 < (xs.foldl (fun best y => if y.2 > best.2 then y else best) x).2 ∧
          ∀ e ∈ l1, e.2 < (xs.foldl (fun best y => if y.2 > best.2 then y else best) x).2)
  | [], x => by simp
  | y :: ys, x => by
    obtain ⟨h1, h2, h3⟩ := foldl_pyMax_spec ys (if y.2 > x.2 then y else x)
    by_cases hxy : y.2 > x.2
    · simp only [List.foldl_cons, if_pos hxy] at h1 h2 h3 ⊢
      refine ⟨?_, ?_, ?_⟩
      · intro e he
        rcases List.mem_cons.1 he with rfl | he
        · exact h2
        · exact h1 e he
      · exact le_trans (le_of_lt hxy) h2
      · rcases h3 with h3 | ⟨l1, l2, hsplit, hlt, hl1⟩
        · refine Or.inr ⟨[], ys, ?_, ?_, by simp⟩
          · simp [h3]
          · rw [h3]; exact hxy
        · refine Or.inr ⟨y :: l1, l2, by rw [List.cons_append, ← hsplit], ?_, ?_⟩
          · exact lt_trans hxy hlt
          · intro e he
            rcases List.mem_cons.1 he with rfl | he
            · exact hlt
            · exact hl1 e he
    · simp only [List.foldl_cons, if_neg hxy] at h1 h2 h3 ⊢
      push_neg at hxy
      refine ⟨?_, h2, ?_⟩
      · intro e he
        rcases List.mem_cons.1 he with rfl | he
        · exact le_trans hxy h2
        · exact h1 e he
      · rcases h3 with h3 | ⟨l1, l2, hsplit, hlt, hl1⟩
        · exact Or.inl h3
        · refine Or.inr ⟨y :: l1, l2, by rw [List.cons_append, ← hsplit], hlt, ?_⟩
          intro e he
          rcases List.mem_cons.1 he with rfl | he
          · exact lt_of_le_of_lt hxy hlt
          · exact hl1 e he

/-- `assignSizeLevels` keeps the sizes. -/
lemma assignSizeLevels_map_fst :
    ∀ (i : Nat) (l : List ℚ), (assignSizeLevels i l).map Prod.fst = l
  | _, [] => rfl
  | i, s :: rest => by
    simp [assignSizeLevels, assignSizeLevels_map_fst (i + 1) rest]

/-- `assignSizeLevels` numbers the entries `i+1, i+2, ...`. -/
lemma assignSizeLevels_map_snd :
    ∀ (i : Nat) (l : List ℚ),
      (assignSizeLevels i l).map Prod.snd = (List.range l.length).map (fun j => i + j + 1)
  | _, [] => rfl
  | i, s :: rest => by
    simp only [assignSizeLevels, List.map_cons, List.length_cons, List.range_succ_eq_map,
      List.map_map, assignSizeLevels_map_snd (i + 1) rest]
    congr 1
    · apply List.map_congr_left
      intro j _
      simp only [Function.comp_apply, Nat.succ_eq_add_one]
      omega

/-- `assignSizeLevels` preserves length. -/
lemma assignSizeLevels_length :
    ∀ (i : Nat) (l : List ℚ), (assignSizeLevels i l).length = l.length
  | _, [] => rfl
  | i, s :: rest => by simp [assignSizeLevels, assignSizeLevels_length (i + 1) rest]

/-- Keys of `bumpStat` are the old keys, possibly with the new key at
the end. -/
lemma bumpStat_mem_keys {tbl : List (ℚ × Nat)} {sz x : ℚ}
    (h : x ∈ (bumpStat tbl sz).map Prod.fst) : x ∈ tbl.map Prod.fst ∨ x = sz := by
  induction tbl with
  | nil =>
    simp [bumpStat] at h
    exact Or.inr h
  | cons e rest ih =>
    by_cases he : e.1 = sz
    · rw [show bumpStat (e :: rest) sz = (e.1, e.2 + 1) :: rest by
        simp [bumpStat, he]] at h
      simp only [List.map_cons, List.mem_cons] at h ⊢
      tauto
    · rw [show bumpStat (e :: rest) sz = (e.1, e.2) :: bumpStat rest sz by
        simp [bumpStat, he]] at h
      simp only [List.map_cons, List.mem_cons] at h ⊢
      rcases h with h | h
      · tauto
      · rcases ih h with h' | h' <;> tauto

/-- `bumpStat` keeps the keys duplicate-free. -/
lemma bumpStat_nodup {tbl : List (ℚ × Nat)} {sz : ℚ}
    (h : (tbl.map Prod.fst).Nodup) : ((bumpStat tbl sz).map Prod.fst).Nodup := by
  induction tbl with
  | nil => simp [bumpStat]
  | cons e rest ih =>
    simp only [List.map_cons, List.nodup_cons] at h
    by_cases he : e.1 = sz
    · rw [show bumpStat (e :: rest) sz = (e.1, e.2 + 1) :: rest by
        simp [bumpStat, he]]
      simp only [List.map_cons, List.nodup_cons]
      exact h
    · rw [show bumpStat (e :: rest) sz = (e.1, e.2) :: bumpStat rest sz by
        simp [bumpStat, he]]
      simp only [List.map_cons, List.nodup_cons]
      refine ⟨fun hmem => ?_, ih h.2⟩
      rcases bumpStat_mem_keys hmem with h' | h'
      · exact h.1 h'
      · exact he h'

/-- The font-statistics table of any block list has duplicate-free keys. -/
lemma font_stats_of_nodup (blocks : List Block) :
    ((font_stats_of blocks).map Prod.fst).Nodup := by
  suffices h : ∀ (bl : List Block) (tbl : List (ℚ × Nat)),
      (tbl.map Prod.fst).Nodup →
      ((bl.foldl (fun t b => bumpStat t b.size) tbl).map Prod.fst).Nodup by
    exact h blocks [] (by simp)
  intro bl
  induction bl with
  | nil => exact fun tbl h => h
  | cons b rest ih =>
    intro tbl h
    exact ih (bumpStat tbl b.size) (bumpStat_nodup h)

/-! ## C6 -/

/-- C6: for every nonempty font-size frequency table, the derived body
size (`max(self.font_stats.items(), key=lambda x: x[1])`) is an entry of
maximal count, and every entry listed before it has a strictly smaller
count — so ties at the maximal count resolve to the first-encountered
size.  In particular the table `{24:1, 18:3, 12:50}` yields body size 12. -/
theorem claim_C6_body_size_first_argmax :
    (∀ (tbl : List (ℚ × Nat)) best, pyMaxBySnd tbl = some best →
      ∃ l1 l2, tbl = l1 ++ best :: l2 ∧ (∀ e ∈ l1, e.2 < best.2) ∧
        ∀ e ∈ tbl, e.2 ≤ best.2) ∧
    pyMaxBySnd [(24, 1), (18, 3), (12, 50)] = some (12, 50) := by
  constructor
  · intro tbl best h
    cases tbl with
    | nil => simp [pyMaxBySnd] at h
    | cons x xs =>
      simp only [pyMaxBySnd, Option.some.injEq] at h
      obtain ⟨h1, h2, h3⟩ := foldl_pyMax_spec xs x
      rw [h] at h1 h2 h3
      rcases h3 with h3 | ⟨l1, l2, hsplit, hlt, hl1⟩
      · refine ⟨[], xs, by rw [h3, List.nil_append], by simp, ?_⟩
        intro e he
        rcases List.mem_cons.1 he with rfl | he
        · rw [h3]
        · exact h1 e he
      · refine ⟨x :: l1, l2, by rw [List.cons_append, ← hsplit], ?_, ?_⟩
        · intro e he
          rcases List.mem_cons.1 he with rfl | he
          · exact hlt
          · exact hl1 e he
        · intro e he
          rcases List.mem_cons.1 he with rfl | he
          · exact h2
          · exact h1 e he
  · decide

/-- Witness for C6 at the concrete table of Scenario C. -/
theorem claim_C6_witness :
    ∃ l1 l2, ([(24, 1), (18, 3), (12, 50)] : List (ℚ × Nat)) = l1 ++ (12, 50) :: l2 ∧
      (∀ e ∈ l1, e.2 < 50) ∧ ∀ e ∈ ([(24, 1), (18, 3), (12, 50)] : List (ℚ × Nat)), e.2 ≤ 50 :=
  claim_C6_body_size_first_argmax.1 [(24, 1), (18, 3), (12, 50)] (12, 50)
    claim_C6_body_size_first_argmax.2

lemma geQ_iff {a b : ℚ} : geQ a b ↔ b ≤ a := Iff.rfl

/-- A descending sorted list without duplicates is strictly descending. -/
lemma pairwise_gt_of_sorted_nodup {l : List ℚ} (hs : l.Pairwise geQ) (hn : l.Nodup) :
    l.Pairwise (fun a b => b < a) := by
  induction l with
  | nil => simp
  | cons a t ih =>
    rcases List.pairwise_cons.1 hs with ⟨ha, ht⟩
    rcases List.nodup_cons.1 hn with ⟨hna, hnt⟩
    refine List.pairwise_cons.2 ⟨?_, ih ht hnt⟩
    intro b hb
    refine lt_of_le_of_ne (geQ_iff.1 (ha b hb)) ?_
    intro hEq
    exact hna (hEq ▸ hb)

/-! ## C7 -/

/-- C7: the heading-size hierarchy built by `build_font_hierarchy` has at
most 3 entries, strictly descending sizes, every size strictly greater
than the body size, and levels 1, 2, 3 assigned in descending-size
order.  (The duplicate-freeness hypothesis on the table keys holds for
every table the pipeline builds — last conjunct.) -/
theorem claim_C7_hierarchy_invariants :
    (∀ (stats : List (ℚ × Nat)) bodyPair, (stats.map Prod.fst).Nodup →
      pyMaxBySnd stats = some bodyPair →
      (build_font_hierarchy stats).length ≤ 3 ∧
      ((build_font_hierarchy stats).map Prod.fst).Pairwise (fun a b => b < a) ∧
      (∀ e ∈ build_font_hierarchy stats, bodyPair.1 < e.1) ∧
      (build_font_hierarchy stats).map Prod.snd =
        (List.range (build_font_hierarchy stats).length).map (fun j => j + 1)) ∧
    (∀ blocks : List Block, ((font_stats_of blocks).map Prod.fst).Nodup) ∧
    build_font_hierarchy [(24, 1), (18, 3), (12, 50)] = [(24, 1), (18, 2)] := by
  refine ⟨?_, font_stats_of_nodup, by decide⟩
  intro stats bodyPair hnd hmax
  have hunfold : build_font_hierarchy stats =
      assignSizeLevels 0
        (((((stats.map Prod.fst).insertionSort geQ).filter
            (fun s => bodyPair.1 < s)).insertionSort geQ).take 3) := by
    unfold build_font_hierarchy
    rw [hmax]
  set sorted2 := ((((stats.map Prod.fst).insertionSort geQ).filter
      (fun s => bodyPair.1 < s)).insertionSort geQ) with hsorted2
  have hnd1 : ((stats.map Prod.fst).insertionSort geQ).Nodup :=
    ((List.perm_insertionSort geQ (stats.map Prod.fst)).nodup_iff).2 hnd
  have hndf : (((stats.map Prod.fst).insertionSort geQ).filter
      (fun s => bodyPair.1 < s)).Nodup := hnd1.filter _
  have hnd2 : sorted2.Nodup := ((List.perm_insertionSort geQ _).nodup_iff).2 hndf
  have hsort2 : sorted2.Pairwise geQ := List.sorted_insertionSort geQ _
  have hgt : (sorted2.take 3).Pairwise (fun a b => b < a) :=
    (pairwise_gt_of_sorted_nodup hsort2 hnd2).sublist (List.take_sublist 3 _)
  refine ⟨?_, ?_, ?_, ?_⟩
  · rw [hunfold, assignSizeLevels_length]
    exact le_trans (List.length_take_le 3 _) (le_refl 3)
  · rw [hunfold, assignSizeLevels_map_fst]
    exact hgt
  · intro e he
    have : e.1 ∈ (build_font_hierarchy stats).map Prod.fst := List.mem_map_of_mem Prod.fst he
    rw [hunfold, assignSizeLevels_map_fst] at this
    have : e.1 ∈ sorted2 := List.mem_of_mem_take this
    have : e.1 ∈ (((stats.map Prod.fst).insertionSort geQ).filter
        (fun s => bodyPair.1 < s)) := (List.mem_insertionSort geQ).1 this
    have := List.of_mem_filter this
    exact of_decide_eq_true this
  · rw [hunfold, assignSizeLevels_map_snd, assignSizeLevels_length]
    apply List.map_congr_left
    intro j _
    omega

/-- Witness for C7 at the concrete table of Scenario C. -/
theorem claim_C7_witness :
    (build_font_hierarchy [(24, 1), (18, 3), (12, 50)]).length ≤ 3 ∧
    ((build_font_hierarchy [(24, 1), (18, 3), (12, 50)]).map Prod.fst).Pairwise
      (fun a b => b < a) ∧
    (∀ e ∈ build_font_hierarchy [(24, 1), (18, 3), (12, 50)], (12 : ℚ) < e.1) ∧
    (build_font_hierarchy [(24, 1), (18, 3), (12, 50)]).map Prod.snd =
      (List.range (build_font_hierarchy [(24, 1), (18, 3), (12, 50)]).length).map
        (fun j => j + 1) :=
  claim_C7_hierarchy_invariants.1 [(24, 1), (18, 3), (12, 50)] (12, 50)
    (by decide) (by decide)

/-! ## C2 -/

/-- A positive raw level yields a positive final level. -/
lemma nextLevel_pos {c raw : Nat} (h : 1 ≤ raw) : 1 ≤ nextLevel c raw := by
  unfold nextLevel
  split
  · exact h
  · split
    · exact h
    · split
      · exact h
      · exact le_min (by omega) (by decide)

/-- Once a heading has been emitted (`current ≥ 1`), the next final level
is at most one deeper than `current`. -/
lemma nextLevel_le {c raw : Nat} (hc : 1 ≤ c) : nextLevel c raw ≤ c + 1 := by
  unfold nextLevel
  split
  · omega
  · split
    · omega
    · split
      · omega
      · exact le_trans (min_le_left _ _) (le_refl _)

/-- The per-page final-level sequence never increases by more than one
step, provided all raw levels are at least 1. -/
lemma assignFinalLevels_chain :
    ∀ (l : List Heading) (c : Nat), (∀ h ∈ l, 1 ≤ h.level) →
      List.Chain' (fun a b : Nat × Heading => b.1 ≤ a.1 + 1) (assignFinalLevels c l)
  | [], _, _ => List.chain'_nil
  | [h], c, _ => by simp [assignFinalLevels]
  | h :: h2 :: t, c, hl => by
    have hh : 1 ≤ h.level := hl h (by simp)
    have hrest : ∀ x ∈ h2 :: t, 1 ≤ x.level := fun x hx => hl x (List.mem_cons_of_mem _ hx)
    have ih := assignFinalLevels_chain (h2 :: t) (nextLevel c h.level) hrest
    rw [assignFinalLevels] at ih ⊢
    rw [assignFinalLevels]
    exact List.Chain'.cons (nextLevel_le (nextLevel_pos hh)) ih

/-- C2: in the outline emitted by `enforce_corrected_hierarchy`, each
heading's final level is at most one greater than the final level of the
immediately preceding heading on the same page (raw levels produced by
the level classifier are always ≥ 1); and a page with raw levels
`[1, 3, 2]` in reading order is emitted as `[H1, H2, H2]`. -/
theorem claim_C2_no_level_jumps :
    (∀ (hs : List Heading), (∀ h ∈ hs, 1 ≤ h.level) → ∀ p : Nat,
      List.Chain' (fun a b : Nat × Heading => b.1 ≤ a.1 + 1) (pageFinalLevels hs p)) ∧
    enforce_corrected_hierarchy
        [⟨"a", 5, 1, 0⟩, ⟨"b", 5, 3, 1⟩, ⟨"c", 5, 2, 2⟩] =
      [⟨"H1", "a", 5⟩, ⟨"H2", "b", 5⟩, ⟨"H2", "c", 5⟩] := by
  constructor
  · intro hs hlv p
    unfold pageFinalLevels
    apply assignFinalLevels_chain
    intro h hmem
    exact hlv h (List.mem_of_mem_filter ((List.mem_insertionSort posOrd).1 hmem))
  · decide

/-- Witness for C2 at the Scenario E page. -/
theorem claim_C2_witness :
    List.Chain' (fun a b : Nat × Heading => b.1 ≤ a.1 + 1)
      (pageFinalLevels [⟨"a", 5, 1, 0⟩, ⟨"b", 5, 3, 1⟩, ⟨"c", 5, 2, 2⟩] 5) :=
  claim_C2_no_level_jumps.1 [⟨"a", 5, 1, 0⟩, ⟨"b", 5, 3, 1⟩, ⟨"c", 5, 2, 2⟩]
    (by decide) 5

/-! ## C9 -/

/-- C9: the Challenge 1b driver aborts the run exactly for configuration
errors — missing configuration file, unreadable configuration file, or
no listed document resolving to an existing PDF; an exception inside the
document analysis does not abort, and still writes an output whose
metadata carries the error string and whose section lists are empty. -/
theorem claim_C9_config_abort :
    (∀ env : Env1b, (∃ msg, main1b env = .abort msg) ↔
      (env.configFile = none ∨ env.configFile = some none ∨
        ∃ c, env.configFile = some (some c) ∧
          c.documents.filter (fun f => env.pdfExists f) = [])) ∧
    (∀ (env : Env1b) (c : Config1b) (e : String),
      env.configFile = some (some c) →
      c.documents.filter (fun f => env.pdfExists f) ≠ [] →
      env.analyze ((c.documents.filter (fun f => env.pdfExists f)).map (fun f => pdfDir ++ f))
          c.persona c.job_to_be_done = .error e →
      main1b env = .wrote
        ⟨⟨((c.documents.filter (fun f => env.pdfExists f)).map
              (fun f => pdfDir ++ f)).map basename,
          c.persona, c.job_to_be_done, some e⟩, [], []⟩) := by
  constructor
  · rintro ⟨cf, pe, an⟩
    constructor
    · rintro ⟨msg, hm⟩
      rcases cf with _ | (_ | c)
      · exact Or.inl rfl
      · exact Or.inr (Or.inl rfl)
      · refine Or.inr (Or.inr ⟨c, rfl, ?_⟩)
        by_contra hne
        simp only [main1b] at hm
        rw [if_neg (by simpa using hne)] at hm
        cases han : an ((c.documents.filter (fun f => pe f)).map (fun f => pdfDir ++ f))
            c.persona c.job_to_be_done with
        | ok r => rw [han] at hm; exact Outcome1b.noConfusion hm
        | error e => rw [han] at hm; exact Outcome1b.noConfusion hm
    · rintro (h | h | ⟨c, hc, hfil⟩)
      · cases h
        exact ⟨_, rfl⟩
      · cases h
        exact ⟨_, rfl⟩
      · cases hc
        dsimp only at hfil
        refine ⟨"No valid PDFs to process", ?_⟩
        simp only [main1b]
        rw [if_pos (by simp [hfil])]
  · intro env c e hc hne han
    rcases env with ⟨cf, pe, an⟩
    cases hc
    dsimp only at hne han
    simp only [main1b]
    rw [if_neg (by simpa using hne)]
    rw [han]

/-- Witness for C9: a readable configuration listing one existing PDF
whose analysis raises. -/
theorem claim_C9_witness :
    main1b ⟨some (some ⟨"p", "j", ["a.pdf"]⟩), fun _ => true, fun _ _ _ => .error "boom"⟩ =
      .wrote ⟨⟨["/app/input/PDFs/a.pdf"].map basename, "p", "j", some "boom"⟩, [], []⟩ := by
  have h := claim_C9_config_abort.2
    ⟨some (some ⟨"p", "j", ["a.pdf"]⟩), fun _ => true, fun _ _ _ => .error "boom"⟩
    ⟨"p", "j", ["a.pdf"]⟩ "boom" rfl (by decide) rfl
  exact h

/-! ## C8 -/

/-- `find?` returns the first element satisfying the predicate. -/
lemma find_first {α : Type} (p : α → Bool) :
    ∀ (l1 : List α) (b : α) (l2 : List α), p b = true → (∀ x ∈ l1, p x = false) →
      (l1 ++ b :: l2).find? p = some b
  | [], b, l2, hb, _ => by simp [List.find?_cons_of_pos, hb]
  | x :: l1, b, l2, hb, hl1 => by
    have hx : p x = false := hl1 x (by simp)
    rw [List.cons_append, List.find?_cons_of_neg _ (by simp [hx])]
    exact find_first p l1 b l2 hb (fun y hy => hl1 y (List.mem_cons_of_mem _ hy))

/-- C8: under the form-document strategy, the title is the text of the
first first-page fragment whose lower-cased text contains `"form"` and
which has at least 3 whitespace-separated words (`formTitleCond`); with
no such fragment the title is the empty string. -/
theorem claim_C8_form_title :
    (∀ (blocks l1 : List Block) (b : Block) (l2 : List Block),
      classify_document_type
          (String.intercalate " " (blocks.map (fun x => pyLower x.text))) = .form_document →
      blocks.filter (fun x => decide (x.page = 0)) = l1 ++ b :: l2 →
      formTitleCond b = true →
      (∀ x ∈ l1, formTitleCond x = false) →
      extract_title_corrected blocks = (some (pyStrip b.text), pyLower (pyStrip b.text))) ∧
    (∀ blocks : List Block,
      classify_document_type
          (String.intercalate " " (blocks.map (fun x => pyLower x.text))) = .form_document →
      (∀ x ∈ blocks.filter (fun x => decide (x.page = 0)), formTitleCond x = false) →
      extract_title_corrected blocks = (some "", "")) := by
  constructor
  · intro blocks l1 b l2 hcls hsplit hb hl1
    unfold extract_title_corrected
    rw [hsplit]
    rw [if_neg (by simp)]
    simp only [hcls]
    rw [find_first formTitleCond l1 b l2 hb hl1]
  · intro blocks hcls hall
    unfold extract_title_corrected
    by_cases hfp : blocks.filter (fun x => decide (x.page = 0)) = []
    · rw [if_pos hfp]
    · rw [if_neg hfp]
      simp only [hcls]
      rw [List.find?_eq_none.2 (fun x hx => by simp [hall x hx])]

/-- Witness for C8: a single-block form document. -/
theorem claim_C8_witness :
    extract_title_corrected
        [⟨"Application Form For Advance", 0, 12, "F", false, 0, 700, false⟩] =
      (some "Application Form For Advance", "application form for advance") := by
  have h := claim_C8_form_title.1
    [⟨"Application Form For Advance", 0, 12, "F", false, 0, 700, false⟩]
    [] ⟨"Application Form For Advance", 0, 12, "F", false, 0, 700, false⟩ []
    (by decide) (by decide) (by decide) (by simp)
  exact h

/-! ## C5 -/

/-- A Python-whitespace character is never a digit. -/
lemma pyWs_not_digit {c : Char} (h : isPyWs c = true) : c.isDigit = false := by
  unfold isPyWs at h
  simp only [Bool.or_eq_true, decide_eq_true_eq] at h
  rcases h with ((((h | h) | h) | h) | h) | h <;> subst h <;> decide

/-- A digit is never Python whitespace. -/
lemma isDigit_not_pyWs {c : Char} (h : c.isDigit = true) : isPyWs c = false := by
  cases hw : isPyWs c
  · rfl
  · rw [pyWs_not_digit hw] at h
    exact Bool.noConfusion h

/-- Destructuring a `^\d+\.\d+\.?\s+` match: the text is a digit, then
(after the digit run) a dot followed directly by another digit. -/
lemma matchNumNumWs_structure {l : List Char} (h : matchNumNumWs l = true) :
    ∃ c rest d r2, l = c :: rest ∧ c.isDigit = true ∧
      dropDigits rest = '.' :: d :: r2 ∧ d.isDigit = true := by
  cases l with
  | nil => exact absurd h (by simp [matchNumNumWs])
  | cons c rest =>
    unfold matchNumNumWs at h
    rw [Bool.and_eq_true] at h
    obtain ⟨hc, hrest⟩ := h
    split at hrest
    · next d r2 heq =>
      rw [Bool.and_eq_true] at hrest
      exact ⟨c, rest, d, r2, rfl, hc, heq, hrest.1⟩
    · exact absurd hrest (by simp)

/-- Destructuring a `^\d+\.\d+\.\d+\.?\s+` match. -/
lemma matchNumNumNumWs_structure {l : List Char} (h : matchNumNumNumWs l = true) :
    ∃ c rest d r2 e r3, l = c :: rest ∧ c.isDigit = true ∧
      dropDigits rest = '.' :: d :: r2 ∧ d.isDigit = true ∧
      dropDigits r2 = '.' :: e :: r3 ∧ e.isDigit = true := by
  cases l with
  | nil => exact absurd h (by simp [matchNumNumNumWs])
  | cons c rest =>
    unfold matchNumNumNumWs at h
    rw [Bool.and_eq_true] at h
    obtain ⟨hc, hrest⟩ := h
    split at hrest
    · next d r2 heq =>
      rw [Bool.and_eq_true] at hrest
      obtain ⟨hd, hrest⟩ := hrest
      split at hrest
      · next e r3 heq2 =>
        rw [Bool.and_eq_true] at hrest
        exact ⟨c, rest, d, r2, e, r3, rfl, hc, heq, hd, heq2, hrest.1⟩
      · exact absurd hrest (by simp)
    · exact absurd hrest (by simp)

/-- A two-deep marker `N.N ...` does not match the one-deep pattern
`^\d+\.\s+` (a digit, not whitespace, follows the dot). -/
lemma matchNumNumWs_not_NumDotWs {l : List Char} (h : matchNumNumWs l = true) :
    matchNumDotWs l = false := by
  obtain ⟨c, rest, d, r2, hl, hc, hdrop, hd⟩ := matchNumNumWs_structure h
  subst hl
  simp only [matchNumDotWs, hdrop, startsWithWsChar, isDigit_not_pyWs hd, Bool.and_false]

/-- A three-deep marker does not match the one-deep pattern. -/
lemma matchNumNumNumWs_not_NumDotWs {l : List Char} (h : matchNumNumNumWs l = true) :
    matchNumDotWs l = false := by
  obtain ⟨c, rest, d, r2, e, r3, hl, hc, hdrop, hd, _, _⟩ := matchNumNumNumWs_structure h
  subst hl
  simp only [matchNumDotWs, hdrop, startsWithWsChar, isDigit_not_pyWs hd, Bool.and_false]

/-- A three-deep marker does not match the two-deep pattern
`^\d+\.\d+\.?\s+` (after the second digit run a dot and then a digit
follow, and a digit is neither whitespace nor skippable). -/
lemma matchNumNumNumWs_not_NumNumWs {l : List Char} (h : matchNumNumNumWs l = true) :
    matchNumNumWs l = false := by
  obtain ⟨c, rest, d, r2, e, r3, hl, hc, hdrop, hd, hdrop2, he⟩ := matchNumNumNumWs_structure h
  subst hl
  simp only [matchNumNumWs, hdrop, hd, hdrop2, optDotWs, startsWithWsChar,
    isDigit_not_pyWs he, Bool.and_false, Bool.true_and]

/-- C5: for Latin documents the level classifier maps a `N. ...` marker
in the normalized text to raw level 1, `N.N ...` to 2 and `N.N.N ...` to
3, regardless of the fragment's font size, boldness or the font
hierarchy; in particular "1. Introduction" → 1, "1.1 Background" → 2,
"1.1.1 Detail" → 3. -/
theorem claim_C5_latin_levels :
    (∀ (nfkc : String → String) (hier stats : List (ℚ × Nat)) (b : Block) (t : String),
      matchNumDotWs (normalize_text nfkc .en t).toList = true →
      determine_heading_level_corrected nfkc .en hier stats b t = 1) ∧
    (∀ (nfkc : String → String) (hier stats : List (ℚ × Nat)) (b : Block) (t : String),
      matchNumNumWs (normalize_text nfkc .en t).toList = true →
      determine_heading_level_corrected nfkc .en hier stats b t = 2) ∧
    (∀ (nfkc : String → String) (hier stats : List (ℚ × Nat)) (b : Block) (t : String),
      matchNumNumNumWs (normalize_text nfkc .en t).toList = true →
      determine_heading_level_corrected nfkc .en hier stats b t = 3) ∧
    (∀ b : Block,
      determine_heading_level_corrected id .en [] [] b "1. Introduction" = 1 ∧
      determine_heading_level_corrected id .en [] [] b "1.1 Background" = 2 ∧
      determine_heading_level_corrected id .en [] [] b "1.1.1 Detail" = 3) := by
  have h1 : ∀ (nfkc : String → String) (hier stats : List (ℚ × Nat)) (b : Block) (t : String),
      matchNumDotWs (normalize_text nfkc .en t).toList = true →
      determine_heading_level_corrected nfkc .en hier stats b t = 1 := by
    intro nfkc hier stats b t h
    have h' : matchNumDotWs (normalize_text nfkc .en t).data = true := h
    simp [determine_heading_level_corrected, h']
  have h2 : ∀ (nfkc : String → String) (hier stats : List (ℚ × Nat)) (b : Block) (t : String),
      matchNumNumWs (normalize_text nfkc .en t).toList = true →
      determine_heading_level_corrected nfkc .en hier stats b t = 2 := by
    intro nfkc hier stats b t h
    have h' : matchNumNumWs (normalize_text nfkc .en t).data = true := h
    have hn : matchNumDotWs (normalize_text nfkc .en t).data = false :=
      matchNumNumWs_not_NumDotWs h
    simp [determine_heading_level_corrected, h', hn]
  have h3 : ∀ (nfkc : String → String) (hier stats : List (ℚ × Nat)) (b : Block) (t : String),
      matchNumNumNumWs (normalize_text nfkc .en t).toList = true →
      determine_heading_level_corrected nfkc .en hier stats b t = 3 := by
    intro nfkc hier stats b t h
    have h' : matchNumNumNumWs (normalize_text nfkc .en t).data = true := h
    have hn1 : matchNumDotWs (normalize_text nfkc .en t).data = false :=
      matchNumNumNumWs_not_NumDotWs h
    have hn2 : matchNumNumWs (normalize_text nfkc .en t).data = false :=
      matchNumNumNumWs_not_NumNumWs h
    simp [determine_heading_level_corrected, h', hn1, hn2]
  exact ⟨h1, h2, h3, fun b =>
    ⟨h1 id [] [] b "1. Introduction" (by decide),
     h2 id [] [] b "1.1 Background" (by decide),
     h3 id [] [] b "1.1.1 Detail" (by decide)⟩⟩

/-- Witness for C5 at a concrete block and fragment. -/
theorem claim_C5_witness :
    determine_heading_level_corrected id .en [] []
      ⟨"x", 0, 12, "F", false, 0, 0, false⟩ "1. Introduction" = 1 :=
  claim_C5_latin_levels.1 id [] [] ⟨"x", 0, 12, "F", false, 0, 0, false⟩
    "1. Introduction" (by decide)

/-! ## C4 -/

/-- C4: for a fragment that is not the extracted title, whose stripped
length lies in the script band, and that matches no skip pattern, the
validator accepts it exactly when the sum of the five bonuses — size
ratio, bold, structural pattern, casing, word-count band — reaches 4. -/
theorem claim_C4_validator_iff_score :
    ∀ (nfkc : String → String) (lang : Lang) (ext : String) (body : ℚ) (b : Block),
      pyLower (pyStrip b.text) ≠ ext →
      (if lang.isCjk then 2 else 3) ≤ (pyStrip b.text).length →
      (pyStrip b.text).length ≤ (if lang.isCjk then 200 else 150) →
      matchesSkipPattern (pyLower (pyStrip b.text)) = false →
      (is_valid_heading nfkc lang ext body b = true ↔
        4 ≤ sizeRatioBonus (if body > 0 then b.size / body else 1) + boldBonus b +
            structuralBonus nfkc lang (pyStrip b.text) +
            casingBonus lang b (pyStrip b.text) + bandBonus lang (pyStrip b.text)) := by
  intro nfkc lang ext body b hti hlen1 hlen2 hskip
  simp only [is_valid_heading]
  rw [if_neg hti]
  rw [if_neg (by push_neg; exact ⟨hlen1, hlen2⟩)]
  rw [if_neg (by simp [hskip])]
  exact decide_eq_true_iff

/-- Witness for C4: a concrete fragment at size ratio 1.5. -/
theorem claim_C4_witness :
    (pyLower (pyStrip (Block.text ⟨"Introduction Overview", 0, 18, "F", false, 0, 50, false⟩)) ≠ "zz") ∧
    (is_valid_heading id .en "zz" 12 ⟨"Introduction Overview", 0, 18, "F", false, 0, 50, false⟩ = true ↔
      4 ≤ sizeRatioBonus (if (12 : ℚ) > 0 then (18 : ℚ) / 12 else 1) +
          boldBonus ⟨"Introduction Overview", 0, 18, "F", false, 0, 50, false⟩ +
          structuralBonus id .en (pyStrip "Introduction Overview") +
          casingBonus .en ⟨"Introduction Overview", 0, 18, "F", false, 0, 50, false⟩
            (pyStrip "Introduction Overview") +
          bandBonus .en (pyStrip "Introduction Overview")) :=
  ⟨by decide,
   claim_C4_validator_iff_score id .en "zz" 12
     ⟨"Introduction Overview", 0, 18, "F", false, 0, 50, false⟩
     (by decide) (by decide) (by decide) (by decide)⟩

/-! ## C1 -/

/-- C1 (code bug): on a standard-type document whose only first-page
block is a valid formal title candidate, `extract_title_corrected`
reaches the final fallthrough (line 374 of `process_pdfs.py`), which
sets `self.extracted_title = ""` but has no `return` statement — the
function returns Python `None`, not a string, and the document result's
`"title"` field becomes JSON `null`.  This contradicts the spec's
"title (string, possibly empty)". -/
theorem claim_C1_title_none :
    extract_title_corrected [⟨"Hello World Example", 0, 12, "F", false, 0, 100, false⟩] =
      (none, "") ∧
    (extract_outline id .en
        [⟨"Hello World Example", 0, 12, "F", false, 0, 100, false⟩]).title = none := by
  constructor
  · decide
  · decide

/-! ## C3 -/

/-- Whenever `extract_title_corrected` returns a title string, the
stored `self.extracted_title` is its lower-cased form. -/
lemma extract_title_snd {blocks : List Block} {t : String}
    (h : (extract_title_corrected blocks).1 = some t) :
    (extract_title_corrected blocks).2 = pyLower t := by
  unfold extract_title_corrected at h ⊢
  by_cases hfp : blocks.filter (fun b => decide (b.page = 0)) = []
  · rw [if_pos hfp] at h ⊢
    simp only [Option.some.injEq] at h
    rw [← h]
    decide
  · rw [if_neg hfp] at h ⊢
    cases hcls : classify_document_type
        (String.intercalate " " (blocks.map (fun b => pyLower b.text))) with
    | catalog_listing =>
      simp only [hcls, Option.some.injEq] at h ⊢
      rw [← h]
      decide
    | invitation_flyer =>
      simp only [hcls] at h ⊢
      cases hbest : pyMaxCandByScore
          (flyerCandidates (blocks.filter (fun b => decide (b.page = 0)))) with
      | some best =>
        simp only [hbest, Option.some.injEq] at h ⊢
        rw [h]
      | none =>
        simp only [hbest, Option.some.injEq] at h ⊢
        rw [← h]
        decide
    | form_document =>
      simp only [hcls] at h ⊢
      cases hfind : (blocks.filter (fun b => decide (b.page = 0))).find? formTitleCond with
      | some b =>
        simp only [hfind, Option.some.injEq] at h ⊢
        rw [h]
      | none =>
        simp only [hfind, Option.some.injEq] at h ⊢
        rw [← h]
        decide
    | formal_document =>
      simp only [hcls] at h ⊢
      unfold formalTitleResult at h ⊢
      cases hsort : (formalCandidates
          (blocks.filter (fun b => decide (b.page = 0)))).insertionSort candOrd with
      | nil =>
        simp only [hsort] at h
        exact Option.noConfusion h
      | cons best tail =>
        simp only [hsort] at h ⊢
        by_cases hlen : 1 ≤ ((blocks.filter (fun b => decide (b.page = 0))).filter
            (fun b => decide (b ≠ best.block))).length
        · rw [if_pos hlen] at h ⊢
          simp only [Option.some.injEq] at h
          rw [h]
        · rw [if_neg hlen] at h
          exact absurd h (by simp)
    | standard =>
      simp only [hcls] at h ⊢
      unfold formalTitleResult at h ⊢
      cases hsort : (formalCandidates
          (blocks.filter (fun b => decide (b.page = 0)))).insertionSort candOrd with
      | nil =>
        simp only [hsort] at h
        exact Option.noConfusion h
      | cons best tail =>
        simp only [hsort] at h ⊢
        by_cases hlen : 1 ≤ ((blocks.filter (fun b => decide (b.page = 0))).filter
            (fun b => decide (b ≠ best.block))).length
        · rw [if_pos hlen] at h ⊢
          simp only [Option.some.injEq] at h
          rw [h]
        · rw [if_neg hlen] at h
          exact absurd h (by simp)

/-- Every heading collected by the main loop has a lower-cased key
different from the extracted title. -/
lemma collect_headings_key (nfkc : String → String) (lang : Lang) (ext : String)
    (body : ℚ) (hier stats : List (ℚ × Nat)) :
    ∀ (seen : List String) (bl : List Block) (h : Heading),
      h ∈ collect_headings nfkc lang ext body hier stats seen bl →
      pyLower h.text ≠ ext := by
  intro seen bl
  induction bl generalizing seen with
  | nil =>
    intro h hm
    simp [collect_headings] at hm
  | cons b rest ih =>
    intro h hm
    simp only [collect_headings] at hm
    split at hm
    · split at hm
      · next hcond =>
        rcases List.mem_cons.1 hm with rfl | hm
        · exact hcond.2.2
        · exact ih _ h hm
      · exact ih _ h hm
    · exact ih _ h hm

/-- Each emitted `(final_level, heading)` pair carries one of the input
headings. -/
lemma assignFinalLevels_mem :
    ∀ {c : Nat} {l : List Heading} {x : Nat × Heading},
      x ∈ assignFinalLevels c l → x.2 ∈ l
  | _, [], x, hx => by simp [assignFinalLevels] at hx
  | c, h :: rest, x, hx => by
    rw [assignFinalLevels] at hx
    rcases List.mem_cons.1 hx with rfl | hx
    · simp
    · exact List.mem_cons_of_mem _ (assignFinalLevels_mem hx)

/-- Every entry of the enforced outline takes its text from one of the
input headings. -/
lemma enforce_text_mem {hs : List Heading} {e : Entry}
    (he : e ∈ enforce_corrected_hierarchy hs) : ∃ h ∈ hs, e.text = h.text := by
  unfold enforce_corrected_hierarchy at he
  split at he
  · simp at he
  · rw [List.mem_flatten] at he
    obtain ⟨l, hl, hel⟩ := he
    obtain ⟨p, _, rfl⟩ := List.mem_map.1 hl
    obtain ⟨x, hx, rfl⟩ := List.mem_map.1 hel
    have hx2 : x.2 ∈ (pageGroup hs p).insertionSort posOrd := assignFinalLevels_mem hx
    have hx3 : x.2 ∈ pageGroup hs p := (List.mem_insertionSort posOrd).1 hx2
    exact ⟨x.2, List.mem_of_mem_filter hx3, rfl⟩

/-- C3: whenever a document result carries a title string, no entry of
its outline equals that title under case-insensitive (lower-cased)
comparison. -/
theorem claim_C3_outline_excludes_title :
    ∀ (nfkc : String → String) (lang : Lang) (blocks : List Block) (t : String),
      (extract_outline nfkc lang blocks).title = some t →
      ∀ e ∈ (extract_outline nfkc lang blocks).outline, pyLower e.text ≠ pyLower t := by
  intro nfkc lang blocks t ht e he
  unfold extract_outline at ht he
  by_cases hb : blocks = []
  · rw [if_pos hb] at he
    simp at he
  · rw [if_neg hb] at ht he
    cases hmax : pyMaxBySnd (font_stats_of blocks) with
    | none =>
      simp only [hmax] at he
      simp at he
    | some bodyPair =>
      simp only [hmax] at ht he
      obtain ⟨h, hh, hte⟩ := enforce_text_mem he
      have hkey : pyLower h.text ≠ (extract_title_corrected blocks).2 := by
        unfold potential_headings_of at hh
        rw [if_neg hb] at hh
        simp only [hmax] at hh
        exact collect_headings_key nfkc lang _ _ _ _ _ _ h hh
      have hext : (extract_title_corrected blocks).2 = pyLower t := extract_title_snd ht
      rw [hext] at hkey
      rw [hte]
      exact hkey

/-- Witness for C3 on the empty document (title `""`, empty outline). -/
theorem claim_C3_witness :
    (extract_outline id .en []).title = some "" ∧
    ∀ e ∈ (extract_outline id .en []).outline, pyLower e.text ≠ pyLower "" :=
  ⟨by decide, claim_C3_outline_excludes_title id .en [] "" (by decide)⟩

/-! ## C10 -/

/-- The combined key order `(page, position)` that the pipeline
establishes on `potential_headings` (blocks are pre-sorted by
`(page, -y)` and `position = -y`). -/
def lexHeadingOrd (a b : Heading) : Prop :=
  a.page < b.page ∨ (a.page = b.page ∧ a.position ≤ b.position)

instance : DecidableRel lexHeadingOrd := fun a b => by
  unfold lexHeadingOrd
  infer_instance

instance : IsTotal Heading posOrd :=
  ⟨fun a b => le_total a.position b.position⟩

instance : IsTrans Heading posOrd :=
  ⟨fun _ _ _ h h' => le_trans h h'⟩

instance : IsTotal Block lexBlockOrd := by
  constructor
  intro a b
  rcases Nat.lt_trichotomy a.page b.page with h | h | h
  · exact Or.inl (Or.inl h)
  · rcases le_total (-a.y) (-b.y) with h' | h'
    · exact Or.inl (Or.inr ⟨h, h'⟩)
    · exact Or.inr (Or.inr ⟨h.symm, h'⟩)
  · exact Or.inr (Or.inl h)

instance : IsTrans Block lexBlockOrd := by
  constructor
  intro a b c hab hbc
  rcases hab with h | ⟨h1, h2⟩
  · rcases hbc with h' | ⟨h1', _⟩
    · exact Or.inl (lt_trans h h')
    · exact Or.inl (h1' ▸ h)
  · rcases hbc with h' | ⟨h1', h2'⟩
    · exact Or.inl (h1 ▸ h')
    · exact Or.inr ⟨h1.trans h1', le_trans h2 h2'⟩

/-- The `(text, page)` projection of the emitted entries of one page is
the `(text, page)` projection of that page's headings. -/
lemma assignFinalLevels_pr :
    ∀ (c : Nat) (l : List Heading),
      ((assignFinalLevels c l).map
          (fun x => Entry.mk (level_map x.1) x.2.text x.2.page)).map
        (fun e => (e.text, e.page)) = l.map (fun h => (h.text, h.page))
  | _, [] => rfl
  | c, h :: rest => by
    simp only [assignFinalLevels, List.map_cons]
    rw [assignFinalLevels_pr]

/-- A list is a permutation of its `p`-part followed by its not-`p`
part. -/
lemma filter_not_perm {α : Type} (p : α → Bool) (l : List α) :
    (l.filter p ++ l.filter (fun a => !(p a))).Perm l := by
  induction l with
  | nil => simp
  | cons a t ih =>
    by_cases ha : p a = true
    · simp only [List.filter_cons, ha, if_pos, Bool.not_true, if_neg, List.cons_append,
        Bool.false_eq_true, ite_false, ite_true]
      exact ih.cons a
    · rw [List.filter_cons_of_neg (by simpa using ha),
        List.filter_cons_of_pos (by simp [ha])]
      exact List.perm_middle.trans (ih.cons a)

/-- Filtering away another page does not change a page's group. -/
lemma pageGroup_filter_ne {hs : List Heading} {k p : Nat} (hpk : p ≠ k) :
    pageGroup (hs.filter (fun h => !(decide (h.page = k)))) p = pageGroup hs p := by
  unfold pageGroup
  rw [List.filter_filter]
  apply List.filter_congr
  intro h _
  by_cases hp : h.page = p
  · simp [hp, hpk]
  · simp [hp]

/-- Concatenating the page groups over any duplicate-free, complete key
list is a permutation of the heading list. -/
lemma groups_flatten_perm :
    ∀ (ks : List Nat) (hs : List Heading), ks.Nodup → (∀ h ∈ hs, h.page ∈ ks) →
      ((ks.map (fun p => pageGroup hs p)).flatten).Perm hs
  | [], hs, _, hmem => by
    cases hs with
    | nil => simp
    | cons h t => exact absurd (hmem h (by simp)) (by simp)
  | k :: ks, hs, hnd, hmem => by
    rw [List.map_cons, List.flatten_cons]
    rcases List.nodup_cons.1 hnd with ⟨hk, hnd'⟩
    have hmap : ks.map (fun p => pageGroup hs p) =
        ks.map (fun p => pageGroup (hs.filter (fun h => !(decide (h.page = k)))) p) := by
      apply List.map_congr_left
      intro p hp
      exact (pageGroup_filter_ne (fun hEq => hk (by rw [← hEq]; exact hp))).symm
    rw [hmap]
    have ih := groups_flatten_perm ks (hs.filter (fun h => !(decide (h.page = k)))) hnd'
      (by
        intro h hh
        have hmem' := List.mem_of_mem_filter hh
        have hne : ¬(h.page = k) := by simpa using List.of_mem_filter hh
        rcases List.mem_cons.1 (hmem h hmem') with h' | h'
        · exact absurd h' hne
        · exact h')
    exact (ih.append_left (pageGroup hs k)).trans (filter_not_perm _ hs)

/-- Flattening pointwise-permuted mapped lists gives permuted flattens. -/
lemma flatten_map_perm {α β : Type} (f g : α → List β) :
    ∀ ks : List α, (∀ p ∈ ks, (f p).Perm (g p)) →
      ((ks.map f).flatten).Perm ((ks.map g).flatten)
  | [], _ => by simp
  | k :: ks, h => by
    rw [List.map_cons, List.flatten_cons, List.map_cons, List.flatten_cons]
    exact (h k (by simp)).append
      (flatten_map_perm f g ks (fun p hp => h p (List.mem_cons_of_mem _ hp)))

/-- The distinct sorted page keys are duplicate-free and complete. -/
lemma sortedPageKeys_nodup (hs : List Heading) : (sortedPageKeys hs).Nodup :=
  ((List.perm_insertionSort _ _).nodup_iff).2 ((hs.map (fun h => h.page)).nodup_dedup)

lemma sortedPageKeys_mem {hs : List Heading} {h : Heading} (hh : h ∈ hs) :
    h.page ∈ sortedPageKeys hs :=
  (List.mem_insertionSort _).2 (List.mem_dedup.2 (List.mem_map_of_mem _ hh))

/-- The enforced outline is, as a `(text, page)` sequence, a permutation
of the validated headings it was given: nothing is dropped, duplicated
or invented. -/
lemma enforce_pr_perm (hs : List Heading) :
    ((enforce_corrected_hierarchy hs).map (fun e => (e.text, e.page))).Perm
      (hs.map (fun h => (h.text, h.page))) := by
  unfold enforce_corrected_hierarchy
  split
  · next hnil =>
    rw [hnil]
    simp
  · rw [List.map_flatten, List.map_map]
    have hstep : (sortedPageKeys hs).map
        ((fun l => l.map (fun e : Entry => (e.text, e.page))) ∘
          (fun p => (pageFinalLevels hs p).map
            (fun x => Entry.mk (level_map x.1) x.2.text x.2.page))) =
        (sortedPageKeys hs).map
          (fun p => ((pageGroup hs p).insertionSort posOrd).map
            (fun h => (h.text, h.page))) := by
      apply List.map_congr_left
      intro p _
      exact assignFinalLevels_pr 0 _
    rw [hstep]
    have hperm1 : ((sortedPageKeys hs).map
        (fun p => ((pageGroup hs p).insertionSort posOrd).map
          (fun h => (h.text, h.page)))).flatten.Perm
        ((sortedPageKeys hs).map
          (fun p => (pageGroup hs p).map (fun h => (h.text, h.page)))).flatten := by
      apply flatten_map_perm
      intro p _
      exact (List.perm_insertionSort posOrd _).map _
    refine hperm1.trans ?_
    have : ((sortedPageKeys hs).map
        (fun p => (pageGroup hs p).map (fun h => (h.text, h.page)))).flatten =
        (((sortedPageKeys hs).map (fun p => pageGroup hs p)).flatten).map
          (fun h => (h.text, h.page)) := by
      rw [List.map_flatten, List.map_map]
      rfl
    rw [this]
    exact (groups_flatten_perm (sortedPageKeys hs) hs (sortedPageKeys_nodup hs)
      (fun h hh => sortedPageKeys_mem hh)).map _

/-- In a page-sorted heading list whose pages are all at least `k`, the
page-`k` headings form a prefix. -/
lemma filter_eq_append :
    ∀ {hs : List Heading} {k : Nat}, (∀ h ∈ hs, k ≤ h.page) →
      hs.Pairwise (fun a b => a.page ≤ b.page) →
      hs.filter (fun h => decide (h.page = k)) ++
        hs.filter (fun h => !(decide (h.page = k))) = hs
  | [], _, _, _ => rfl
  | h :: t, k, hmin, hsorted => by
    rcases List.pairwise_cons.1 hsorted with ⟨hhead, htail⟩
    by_cases hp : h.page = k
    · rw [List.filter_cons_of_pos (by simp [hp]),
        List.filter_cons_of_neg (by simp [hp]), List.cons_append]
      rw [filter_eq_append (fun x hx => hmin x (List.mem_cons_of_mem _ hx)) htail]
    · have hklt : k < h.page := lt_of_le_of_ne (hmin h (by simp)) (fun hEq => hp hEq.symm)
      have hnone : ∀ x ∈ h :: t, ¬(x.page = k) := by
        intro x hx
        rcases List.mem_cons.1 hx with rfl | hx
        · exact hp
        · exact fun hEq => absurd (hEq ▸ hhead x hx) (Nat.not_le_of_lt hklt)
      rw [List.filter_eq_nil_iff.2 (by intro x hx; simpa using hnone x hx),
        List.filter_eq_self.2 (by intro x hx; simpa using hnone x hx), List.nil_append]

/-- Over sorted, duplicate-free, complete keys, concatenating the page
groups of a page-sorted heading list reproduces the list exactly. -/
lemma groups_flatten_eq :
    ∀ (ks : List Nat) (hs : List Heading), ks.Sorted (· ≤ ·) → ks.Nodup →
      (∀ h ∈ hs, h.page ∈ ks) → hs.Pairwise (fun a b => a.page ≤ b.page) →
      ((ks.map (fun p => pageGroup hs p)).flatten) = hs
  | [], hs, _, _, hmem, _ => by
    cases hs with
    | nil => rfl
    | cons h t => exact absurd (hmem h (by simp)) (by simp)
  | k :: ks, hs, hsortk, hnd, hmem, hsorted => by
    rw [List.map_cons, List.flatten_cons]
    rcases List.nodup_cons.1 hnd with ⟨hk, hnd'⟩
    rcases List.pairwise_cons.1 hsortk with ⟨hkmin, hsortk'⟩
    have hmap : ks.map (fun p => pageGroup hs p) =
        ks.map (fun p => pageGroup (hs.filter (fun h => !(decide (h.page = k)))) p) := by
      apply List.map_congr_left
      intro p hp
      exact (pageGroup_filter_ne (fun hEq => hk (by rw [← hEq]; exact hp))).symm
    rw [hmap]
    rw [groups_flatten_eq ks (hs.filter (fun h => !(decide (h.page = k)))) hsortk' hnd'
      (by
        intro h hh
        have hmem' := List.mem_of_mem_filter hh
        have hne : ¬(h.page = k) := by simpa using List.of_mem_filter hh
        rcases List.mem_cons.1 (hmem h hmem') with h' | h'
        · exact absurd h' hne
        · exact h')
      (hsorted.filter _)]
    exact filter_eq_append
      (fun h hh => by
        rcases List.mem_cons.1 (hmem h hh) with h' | h'
        · exact le_of_eq h'.symm
        · exact hkmin _ h')
      hsorted

/-- A lex-sorted heading list has position-sorted page groups. -/
lemma pageGroup_pos_sorted {hs : List Heading}
    (hlex : hs.Pairwise lexHeadingOrd) (p : Nat) :
    (pageGroup hs p).Pairwise posOrd := by
  have h1 : (pageGroup hs p).Pairwise lexHeadingOrd := hlex.filter _
  refine List.Pairwise.imp_of_mem ?_ h1
  intro a b ha hb hab
  have ha' : a ∈ hs.filter (fun h => decide (h.page = p)) := ha
  have hb' : b ∈ hs.filter (fun h => decide (h.page = p)) := hb
  have hpa : a.page = p := of_decide_eq_true (List.mem_filter.1 ha').2
  have hpb : b.page = p := of_decide_eq_true (List.mem_filter.1 hb').2
  rcases hab with h | ⟨_, h⟩
  · rw [hpa, hpb] at h
    exact absurd h (lt_irrefl p)
  · exact h

/-- On a lex-sorted heading list the enforcer is order-preserving: the
emitted `(text, page)` sequence equals the input sequence. -/
lemma enforce_pr_eq {hs : List Heading} (hlex : hs.Pairwise lexHeadingOrd) :
    (enforce_corrected_hierarchy hs).map (fun e => (e.text, e.page)) =
      hs.map (fun h => (h.text, h.page)) := by
  unfold enforce_corrected_hierarchy
  split
  · next hnil =>
    rw [hnil]
    simp
  · rw [List.map_flatten, List.map_map]
    have hstep : (sortedPageKeys hs).map
        ((fun l => l.map (fun e : Entry => (e.text, e.page))) ∘
          (fun p => (pageFinalLevels hs p).map
            (fun x => Entry.mk (level_map x.1) x.2.text x.2.page))) =
        (sortedPageKeys hs).map
          (fun p => (pageGroup hs p).map (fun h => (h.text, h.page))) := by
      apply List.map_congr_left
      intro p _
      have hid : (pageGroup hs p).insertionSort posOrd = pageGroup hs p :=
        List.Sorted.insertionSort_eq (pageGroup_pos_sorted hlex p)
      have := assignFinalLevels_pr 0 ((pageGroup hs p).insertionSort posOrd)
      rw [hid] at this
      simpa [pageFinalLevels, hid] using this
    rw [hstep]
    have hflat : ((sortedPageKeys hs).map
        (fun p => (pageGroup hs p).map (fun h => (h.text, h.page)))).flatten =
        (((sortedPageKeys hs).map (fun p => pageGroup hs p)).flatten).map
          (fun h => (h.text, h.page)) := by
      rw [List.map_flatten, List.map_map]
      rfl
    rw [hflat]
    rw [groups_flatten_eq (sortedPageKeys hs) hs (List.sorted_insertionSort _ _)
      (sortedPageKeys_nodup hs) (fun h hh => sortedPageKeys_mem hh)
      (hlex.imp (fun hab => by
        rcases hab with h | ⟨h, _⟩
        · exact le_of_lt h
        · exact le_of_eq h))]

/-- Every collected heading carries the page and position of one of the
walked blocks. -/
lemma collect_headings_src (nfkc : String → String) (lang : Lang) (ext : String)
    (body : ℚ) (hier stats : List (ℚ × Nat)) :
    ∀ (seen : List String) (bl : List Block) (h : Heading),
      h ∈ collect_headings nfkc lang ext body hier stats seen bl →
      ∃ b ∈ bl, h.page = b.page ∧ h.position = -b.y := by
  intro seen bl
  induction bl generalizing seen with
  | nil =>
    intro h hm
    simp [collect_headings] at hm
  | cons b rest ih =>
    intro h hm
    simp only [collect_headings] at hm
    split at hm
    · split at hm
      · rcases List.mem_cons.1 hm with rfl | hm
        · exact ⟨b, by simp, rfl, rfl⟩
        · obtain ⟨b', hb', hprops⟩ := ih _ h hm
          exact ⟨b', List.mem_cons_of_mem _ hb', hprops⟩
      · obtain ⟨b', hb', hprops⟩ := ih _ h hm
        exact ⟨b', List.mem_cons_of_mem _ hb', hprops⟩
    · obtain ⟨b', hb', hprops⟩ := ih _ h hm
      exact ⟨b', List.mem_cons_of_mem _ hb', hprops⟩

/-- Walking blocks sorted by `(page, -y)` collects headings sorted by
`(page, position)`. -/
lemma collect_headings_pairwise (nfkc : String → String) (lang : Lang) (ext : String)
    (body : ℚ) (hier stats : List (ℚ × Nat)) :
    ∀ (seen : List String) (bl : List Block), bl.Pairwise lexBlockOrd →
      (collect_headings nfkc lang ext body hier stats seen bl).Pairwise lexHeadingOrd := by
  intro seen bl
  induction bl generalizing seen with
  | nil =>
    intro _
    simp [collect_headings]
  | cons b rest ih =>
    intro hp
    rcases List.pairwise_cons.1 hp with ⟨hhead, htail⟩
    simp only [collect_headings]
    split
    · split
      · refine List.pairwise_cons.2 ⟨?_, ih _ htail⟩
        intro h' hh'
        obtain ⟨b', hb', hpage, hpos⟩ :=
          collect_headings_src nfkc lang ext body hier stats _ rest h' hh'
        rcases hhead b' hb' with hlt | ⟨hEq, hle⟩
        · exact Or.inl (by simpa [hpage] using hlt)
        · exact Or.inr ⟨by simpa [hpage] using hEq, by simpa [hpos] using hle⟩
      · exact ih _ htail
    · exact ih _ htail

/-- The potential-heading list built by `extract_outline` is sorted by
`(page, position)`. -/
lemma potential_headings_pairwise (nfkc : String → String) (lang : Lang)
    (blocks : List Block) :
    (potential_headings_of nfkc lang blocks).Pairwise lexHeadingOrd := by
  by_cases hb : blocks = []
  · simp [potential_headings_of, hb]
  · simp only [potential_headings_of, if_neg hb]
    cases hmax : pyMaxBySnd (font_stats_of blocks) with
    | none => simp [hmax]
    | some bp =>
      simp only [hmax]
      exact collect_headings_pairwise nfkc lang _ _ _ _ _ _
        (List.sorted_insertionSort lexBlockOrd blocks)

/-- The outline of `extract_outline` is exactly the enforcer's output on
the potential headings (both are empty in the degenerate branches). -/
lemma extract_outline_outline (nfkc : String → String) (lang : Lang)
    (blocks : List Block) :
    (extract_outline nfkc lang blocks).outline =
      enforce_corrected_hierarchy (potential_headings_of nfkc lang blocks) := by
  unfold extract_outline potential_headings_of
  by_cases hb : blocks = []
  · rw [if_pos hb, if_pos hb]
    rfl
  · rw [if_neg hb, if_neg hb]
    cases hmax : pyMaxBySnd (font_stats_of blocks) with
    | none => simp [hmax]; rfl
    | some bp => simp [hmax, potential_headings_of, hb]

/-- C10: the hierarchy enforcer neither drops, duplicates nor invents
headings (its `(text, page)` output is a permutation of its input); on
input sorted by `(page, position)` — which is what the pipeline feeds it
— it preserves the order exactly, so the emitted outline is listed by
ascending page and, within a page, in top-to-bottom reading order
(ascending `position = -y`); and the pipeline's outline is precisely the
enforcer applied to the collected headings. -/
theorem claim_C10_order_preservation :
    (∀ hs : List Heading,
      ((enforce_corrected_hierarchy hs).map (fun e => (e.text, e.page))).Perm
        (hs.map (fun h => (h.text, h.page)))) ∧
    (∀ hs : List Heading, hs.Pairwise lexHeadingOrd →
      (enforce_corrected_hierarchy hs).map (fun e => (e.text, e.page)) =
        hs.map (fun h => (h.text, h.page))) ∧
    (∀ (nfkc : String → String) (lang : Lang) (blocks : List Block),
      (potential_headings_of nfkc lang blocks).Pairwise lexHeadingOrd) ∧
    (∀ (nfkc : String → String) (lang : Lang) (blocks : List Block),
      (extract_outline nfkc lang blocks).outline =
        enforce_corrected_hierarchy (potential_headings_of nfkc lang blocks)) :=
  ⟨enforce_pr_perm, fun _ h => enforce_pr_eq h, potential_headings_pairwise,
    extract_outline_outline⟩

/-- Witness for C10 on a concrete sorted two-page heading list. -/
theorem claim_C10_witness :
    (enforce_corrected_hierarchy
        [⟨"a", 0, 1, 0⟩, ⟨"b", 0, 2, 1⟩, ⟨"c", 1, 1, 0⟩]).map
      (fun e => (e.text, e.page)) = [("a", 0), ("b", 0), ("c", 1)] := by
  have h := claim_C10_order_preservation.2.1
    [⟨"a", 0, 1, 0⟩, ⟨"b", 0, 2, 1⟩, ⟨"c", 1, 1, 0⟩] (by decide)
  exact h.trans (by decide)

end PdfOutline
